import Mathlib

/-!
Font discovery, handle ownership and text state of the SDL3 game shell.

A shallow embedding of `src/utils/FontManager.hpp`, `src/utils/SDLDeleters.hpp`,
`src/graphics/Window.cpp` and `src/graphics/Text.cpp`, followed by the
properties of the specification that are stated about them.

Conventions of the embedding

* A raw native pointer is a natural number; `0` is `nullptr`.
* A `std::filesystem::path` is the list of its components below the root; its
  `string()` is rendered by `pathString`.
* The filesystem is an explicit value (`FileSystem`): the answer of
  `current_path()`, the paths whose status cannot be determined, and the
  objects that exist, listed in directory-iteration order.
* A C++ exception is the `Except.error` of its `what()` text.  A function that
  mutates a member before it throws returns the mutated state beside the error.
* Calls into SDL are recorded in a trace of `NativeCall`s, the filesystem and
  font operations of `FontManager` in a trace of `FsCall`s.
-/

set_option autoImplicit false

namespace Game

/-! ## Paths -/

/-- A `std::filesystem::path`: the components below the root directory. -/
abbrev Path := List String

/-- The characters of `path::string()`: `/` alone for the root, otherwise every
component preceded by the separator. -/
def pathChars : Path → List Char
  | [] => ['/']
  | [c] => '/' :: c.data
  | c :: d :: rest => '/' :: c.data ++ pathChars (d :: rest)

/-- The text of `path::string()`. -/
def pathString (p : Path) : String := String.mk (pathChars p)

/-- The last component, as `path::filename().string()`. -/
def filename (p : Path) : String := (p.getLast?).getD ""

/-- The path without its last component, as `path::parent_path()`; the root is
its own parent. -/
def parentPath (p : Path) : Path := p.dropLast

/-- The suffix of a character list that starts at its rightmost period, or the
empty list when it holds no period. -/
def lastDotSuffix : List Char → List Char
  | [] => []
  | c :: cs =>
    match lastDotSuffix cs with
    | [] => if c = '.' then c :: cs else []
    | s => s

/-- The characters of `path::extension()` for a filename: empty for the
special names `.` and `..`; otherwise the part from the rightmost period on,
where a period in first position does not count. -/
def extensionChars (name : List Char) : List Char :=
  if name = ['.'] ∨ name = ['.', '.'] then []
  else
    match name with
    | [] => []
    | _ :: rest => lastDotSuffix rest

/-- The text of `entry.path().extension().string()` after
`std::transform(..., ::tolower)`. -/
def lowerExtension (p : Path) : String :=
  String.mk ((extensionChars (filename p).data).map Char.toLower)

/-- The `fontExtensions` vector of `updateFontCache`. -/
def fontExtensions : List String := [".ttf", ".otf", ".ttc"]

/-- The test `std::find(fontExtensions...) != fontExtensions.end()` on the
lower-cased extension. -/
def hasFontExtension (p : Path) : Bool := decide (lowerExtension p ∈ fontExtensions)

/-! ## The font cache: `std::unordered_map<std::string, std::string>` -/

/-- The `fontCache` member: an association list with one entry per key. -/
abbrev FontCache := List (String × String)

namespace FontCache

/-- The lookup `fontCache.find(key)`: the mapped value, if the key is present. -/
def find (key : String) : FontCache → Option String
  | [] => none
  | (k, v) :: rest => if k = key then some v else find key rest

/-- The assignment `fontCache[key] = value`: overwrites the value of a present
key, inserts the pair otherwise. -/
def assign (key value : String) : FontCache → FontCache
  | [] => [(key, value)]
  | (k, v) :: rest =>
    if k = key then (key, value) :: rest else (k, v) :: assign key value rest

/-- The keys of the cache, as collected by `getAvailableFonts`. -/
def keys (c : FontCache) : List String := c.map Prod.fst

end FontCache

/-! ## The filesystem -/

/-- What a filesystem object is: a non-directory (with the answer of
`is_regular_file()`), or a directory (with whether it can be opened for
iteration). -/
inductive Kind where
  | file (regular : Bool)
  | dir (readable : Bool)
  deriving DecidableEq, Repr

/-- One object of the filesystem. -/
structure FsEntry where
  path : Path
  kind : Kind
  deriving DecidableEq, Repr

/-- The state of the filesystem seen by one scan. -/
structure FileSystem where
  /-- The answer of `std::filesystem::current_path()`; `none` when the call
  raises `filesystem_error` (the working directory has been removed, or cannot
  be read). -/
  cwd : Option Path
  /-- The paths whose status cannot be determined, for instance those below a
  directory without search permission: `std::filesystem::exists` raises
  `filesystem_error` on them. -/
  statusFails : List Path
  /-- Every object below the root, in the order in which directory iteration
  meets them. -/
  entries : List FsEntry

namespace FileSystem

/-- The kind of the object at a path, if there is one. -/
def lookup (fs : FileSystem) (p : Path) : Option Kind :=
  (fs.entries.find? (fun e => decide (e.path = p))).map FsEntry.kind

/-- The call `std::filesystem::current_path()`. -/
def currentPath (fs : FileSystem) : Except String Path :=
  match fs.cwd with
  | some cwd => Except.ok cwd
  | none => Except.error "filesystem error: cannot get current path"

/-- The status query `std::filesystem::exists(p)`, in its throwing form: the
answer, or the `filesystem_error` raised when the status of `p` cannot be
determined.  The root always exists. -/
def pathExists (fs : FileSystem) (p : Path) : Except String Bool :=
  if p ∈ fs.statusFails then Except.error "filesystem error: cannot get file status"
  else Except.ok (p.isEmpty || (fs.lookup p).isSome)

end FileSystem

/-- Whether `p` lies below the directory `base`, at any depth: `base` is a
proper prefix of `p`. -/
def isUnder : Path → Path → Bool
  | [], p => !p.isEmpty
  | _ :: _, [] => false
  | b :: bs, c :: cs => decide (b = c) && isUnder bs cs

/-- The answer of `entry.is_regular_file()`. -/
def FsEntry.isRegularFile (e : FsEntry) : Bool :=
  match e.kind with
  | Kind.file regular => regular
  | Kind.dir _ => false

/-- What one range-for over a `recursive_directory_iterator` observes: the
entries handed to the loop body, in order, and whether the iteration ended by
raising `std::filesystem::filesystem_error`. -/
structure Enumeration where
  yielded : List FsEntry
  failed : Bool
  deriving DecidableEq, Repr

/-- The iteration over the objects below an opened directory: each one is
handed to the loop body; advancing past a directory that cannot be opened
raises the error and ends the iteration. -/
def walk : List FsEntry → Enumeration
  | [] => { yielded := [], failed := false }
  | e :: rest =>
    match e.kind with
    | Kind.dir false => { yielded := [e], failed := true }
    | _ => { yielded := e :: (walk rest).yielded, failed := (walk rest).failed }

/-- The constructor and traversal of
`std::filesystem::recursive_directory_iterator(basePath)` with default options:
constructing it on anything but a directory that can be opened raises the
error at once. -/
def FileSystem.recursiveDirectoryIterator (fs : FileSystem) (base : Path) : Enumeration :=
  match fs.lookup base with
  | some (Kind.dir true) => walk (fs.entries.filter (fun e => isUnder base e.path))
  | _ => { yielded := [], failed := true }

/-! ## `FontManager` -/

/-- The data members of `FontManager`. -/
structure FontManager where
  initialized : Bool
  fontCache : FontCache
  deriving DecidableEq, Repr

/-- The default-constructed singleton: `initialized = false`, empty cache. -/
def FontManager.fresh : FontManager := { initialized := false, fontCache := [] }

/-- The `baseSearchPaths` vector of `updateFontCache`, in scan order. -/
def baseSearchPaths (cwd : Path) : List Path :=
  [ cwd ++ ["assets"],
    cwd ++ ["src", "assets"],
    parentPath cwd ++ ["assets"],
    parentPath cwd ++ ["src", "assets"] ]

/-- An operation of `FontManager` on the filesystem, on its cache or on
SDL_ttf, as it is recorded in a trace. -/
inductive FsCall where
  /-- The statement `fontCache.clear()`, the first one of `updateFontCache`. -/
  | clear
  /-- The test `std::filesystem::exists(basePath)`. -/
  | status (base : Path)
  /-- The range-for over `recursive_directory_iterator(basePath)`. -/
  | iterate (base : Path)
  /-- The call of `SDL_LogWarn` in the `catch` clause. -/
  | warn (base : Path)
  /-- The call `TTF_OpenFont(path, size)`. -/
  | openFont (path : String) (size : Int)
  deriving DecidableEq, Repr

/-- The body of the inner range-for of `updateFontCache` for one entry. -/
def scanEntry (cache : FontCache) (entry : FsEntry) : FontCache :=
  if !entry.isRegularFile then cache
  else if hasFontExtension entry.path then
    cache.assign (filename entry.path) (pathString entry.path)
  else cache

/-- The `try` block of `updateFontCache` for one base directory.  The cache is
mutated in place, so what was inserted before an error stays inserted; the
first component tells whether the block left by an exception. -/
def scanDirectory (fs : FileSystem) (base : Path) (cache : FontCache) :
    Except String Unit × FontCache :=
  let it := fs.recursiveDirectoryIterator base
  (if it.failed then Except.error "filesystem error: directory iterator" else Except.ok (),
   it.yielded.foldl scanEntry cache)

/-- The outer loop of `updateFontCache` over the base paths still to scan, from
the cache and the trace built so far.  The `exists` test stands outside the
`try` block: a `filesystem_error` it raises ends the loop and leaves the
function.  An error of the `try` block is caught: a warning is logged and the
loop goes on. -/
def scanBases (fs : FileSystem) :
    List Path → FontCache × List FsCall → Except String Unit × FontCache × List FsCall
  | [], acc => (Except.ok (), acc)
  | base :: rest, (cache, trace) =>
    match fs.pathExists base with
    | Except.error what => (Except.error what, cache, trace ++ [FsCall.status base])
    | Except.ok false => scanBases fs rest (cache, trace ++ [FsCall.status base])
    | Except.ok true =>
      match scanDirectory fs base cache with
      | (Except.ok _, scanned) =>
        scanBases fs rest (scanned, trace ++ [FsCall.status base, FsCall.iterate base])
      | (Except.error _, scanned) =>
        scanBases fs rest
          (scanned, trace ++ [FsCall.status base, FsCall.iterate base, FsCall.warn base])

/-- What one call of `updateFontCache` did: normal return or the text of the
`filesystem_error` that left it, the manager afterwards, and the trace of its
operations. -/
structure ScanResult where
  result : Except String Unit
  manager : FontManager
  trace : List FsCall

/-- The base paths for which `SDL_LogWarn` was called. -/
def ScanResult.warnings (r : ScanResult) : List Path :=
  r.trace.filterMap (fun c => match c with
    | FsCall.warn base => some base
    | _ => none)

/-- The method `FontManager::updateFontCache`: `fontCache.clear()`, the
construction of `baseSearchPaths` from `current_path()`, and the loop over the
base search paths. -/
def updateFontCache (fs : FileSystem) (m : FontManager) : ScanResult :=
  match fs.currentPath with
  | Except.error what =>
    { result := Except.error what, manager := { m with fontCache := [] },
      trace := [FsCall.clear] }
  | Except.ok cwd =>
    let r := scanBases fs (baseSearchPaths cwd) ([], [FsCall.clear])
    { result := r.1, manager := { m with fontCache := r.2.1 }, trace := r.2.2 }

/-- The method `FontManager::getAvailableFonts`. -/
def getAvailableFonts (m : FontManager) : List String := m.fontCache.keys

/-- The method `FontManager::findFontPath`: the cached path, or the empty
string. -/
def findFontPath (m : FontManager) (fontName : String) : String :=
  match m.fontCache.find fontName with
  | some path => path
  | none => ""

/-- The answers of SDL_ttf that a `FontManager` call depends on. -/
structure Ttf where
  /-- The result of `TTF_Init()`. -/
  init : Bool
  /-- The result of `TTF_OpenFont(path, size)`; `0` is `nullptr`. -/
  openFont : String → Int → Nat
  /-- The text of `SDL_GetError()`. -/
  getError : String

/-- The method `FontManager::initialize`.  An exception that leaves
`updateFontCache` leaves this method too, after `initialized` was set. -/
def initFontManager (fs : FileSystem) (ttf : Ttf) (m : FontManager) :
    Except String Unit × FontManager :=
  if !ttf.init then
    (Except.error ("SDL_ttf could not initialize! SDL_Error: " ++ ttf.getError), m)
  else
    let scan := updateFontCache fs { m with initialized := true }
    (scan.result, scan.manager)

/-- The method `FontManager::shutdown`. -/
def shutdown (m : FontManager) : FontManager :=
  if m.initialized then { m with initialized := false } else m

/-- What one call of `loadFont` did: the returned font pointer or the text of
the exception, the manager afterwards, and the trace of the operations of the
call, those of the `updateFontCache` calls it made included. -/
structure LoadOutcome where
  result : Except String Nat
  manager : FontManager
  trace : List FsCall

/-- The number of `updateFontCache` calls made during a `loadFont` call, read
off its trace: each such call clears the cache once, as its first statement. -/
def LoadOutcome.rescans (o : LoadOutcome) : Nat := o.trace.count FsCall.clear

/-- The tail of `loadFont`: `TTF_OpenFont` on the resolved path and the null
test on the font. -/
def openResolved (ttf : Ttf) (m : FontManager) (trace : List FsCall) (fontPath : String)
    (fontSize : Int) : LoadOutcome :=
  let font := ttf.openFont fontPath fontSize
  if font = 0 then
    { result := Except.error ("Failed to load font! SDL_Error: " ++ ttf.getError),
      manager := m, trace := trace ++ [FsCall.openFont fontPath fontSize] }
  else
    { result := Except.ok font, manager := m,
      trace := trace ++ [FsCall.openFont fontPath fontSize] }

/-- The method `FontManager::loadFont`.  A `filesystem_error` that leaves the
rescan leaves `loadFont` as well. -/
def loadFont (fs : FileSystem) (ttf : Ttf) (m : FontManager) (fontName : String)
    (fontSize : Int) : LoadOutcome :=
  if !m.initialized then
    { result := Except.error "FontManager not initialized!", manager := m, trace := [] }
  else
    let fontPath := findFontPath m fontName
    if fontPath = "" then
      let scan := updateFontCache fs m
      match scan.result with
      | Except.error what =>
        { result := Except.error what, manager := scan.manager, trace := scan.trace }
      | Except.ok _ =>
        let fontPath1 := findFontPath scan.manager fontName
        if fontPath1 = "" then
          { result := Except.error ("Could not find font: " ++ fontName),
            manager := scan.manager, trace := scan.trace }
        else openResolved ttf scan.manager scan.trace fontPath1 fontSize
    else openResolved ttf m [] fontPath fontSize

/-- The states a `FontManager` can be in: the default-constructed one, and
whatever `FontManager::initialize`, `loadFont` and `shutdown` make of a
reachable one. -/
inductive Reachable : FontManager → Prop where
  | fresh : Reachable FontManager.fresh
  | init (fs : FileSystem) (ttf : Ttf) (m : FontManager) :
      Reachable m → Reachable (initFontManager fs ttf m).2
  | loadFont (fs : FileSystem) (ttf : Ttf) (m : FontManager) (fontName : String)
      (fontSize : Int) : Reachable m → Reachable (loadFont fs ttf m fontName fontSize).manager
  | shutdown (m : FontManager) : Reachable m → Reachable (shutdown m)

/-! ## Native calls and the owning handles of `SDLDeleters.hpp` -/

/-- A value of `SDL_Color`. -/
structure SDL_Color where
  r : Nat
  g : Nat
  b : Nat
  a : Nat
  deriving DecidableEq, Repr

/-- A call into SDL or SDL_ttf that creates or releases a native resource, as
it is recorded in a trace. -/
inductive NativeCall where
  | SDL_CreateWindow (title : String) (width height : Int)
  | SDL_CreateRenderer (window : Nat)
  | TTF_RenderText_Blended (font : Nat) (text : String) (color : SDL_Color)
  | SDL_CreateTextureFromSurface (renderer surface : Nat)
  | SDL_DestroyWindow (window : Nat)
  | SDL_DestroyRenderer (renderer : Nat)
  | SDL_DestroySurface (surface : Nat)
  | SDL_DestroyTexture (texture : Nat)
  | TTF_CloseFont (font : Nat)
  deriving DecidableEq, Repr

/-- A deleter: called on a raw pointer, it extends the trace. -/
abbrev Deleter := Nat → List NativeCall → List NativeCall

namespace SDLDeleters

/-- The call operator of `SDLDeleters::WindowDeleter`. -/
def WindowDeleter : Deleter := fun window trace =>
  if window ≠ 0 then trace ++ [NativeCall.SDL_DestroyWindow window] else trace

/-- The call operator of `SDLDeleters::RendererDeleter`. -/
def RendererDeleter : Deleter := fun renderer trace =>
  if renderer ≠ 0 then trace ++ [NativeCall.SDL_DestroyRenderer renderer] else trace

/-- The call operator of `SDLDeleters::SurfaceDeleter`. -/
def SurfaceDeleter : Deleter := fun surface trace =>
  if surface ≠ 0 then trace ++ [NativeCall.SDL_DestroySurface surface] else trace

/-- The call operator of `SDLDeleters::TextureDeleter`. -/
def TextureDeleter : Deleter := fun texture trace =>
  if texture ≠ 0 then trace ++ [NativeCall.SDL_DestroyTexture texture] else trace

/-- The call operator of `SDLDeleters::FontDeleter`. -/
def FontDeleter : Deleter := fun font trace =>
  if font ≠ 0 then trace ++ [NativeCall.TTF_CloseFont font] else trace

end SDLDeleters

/-- The call operator of the private `Window::SDLWindowDeleter`, which has no
null test of its own. -/
def Window.SDLWindowDeleter : Deleter :=
  fun w trace => trace ++ [NativeCall.SDL_DestroyWindow w]

/-- The call operator of the private `Window::SDLRendererDeleter`, which has no
null test of its own. -/
def Window.SDLRendererDeleter : Deleter :=
  fun r trace => trace ++ [NativeCall.SDL_DestroyRenderer r]

/-- An object of type `std::unique_ptr<T, D>`: the stored pointer. -/
structure UniquePtr where
  ptr : Nat
  deriving DecidableEq, Repr

namespace UniquePtr

/-- The destructor `~unique_ptr()`: calls the deleter when the stored pointer
is not null. -/
def destroy (d : Deleter) (u : UniquePtr) (trace : List NativeCall) : List NativeCall :=
  if u.ptr ≠ 0 then d u.ptr trace else trace

/-- The member `reset(p)`: stores `p`, then calls the deleter on the old
pointer when that one is not null. -/
def reset (d : Deleter) (u : UniquePtr) (p : Nat) (trace : List NativeCall) :
    UniquePtr × List NativeCall :=
  ({ ptr := p }, if u.ptr ≠ 0 then d u.ptr trace else trace)

end UniquePtr

/-- The owning handle types of the repository: the five aliases `WindowPtr`,
`RendererPtr`, `SurfacePtr`, `TexturePtr`, `FontPtr` of `SDLDeleters.hpp`, and
the types of the two members of `Window`. -/
inductive HandleKind where
  | window
  | renderer
  | surface
  | texture
  | font
  | windowMember
  | rendererMember
  deriving DecidableEq, Repr

/-- The deleter type of each handle type. -/
def HandleKind.deleter : HandleKind → Deleter
  | HandleKind.window => SDLDeleters.WindowDeleter
  | HandleKind.renderer => SDLDeleters.RendererDeleter
  | HandleKind.surface => SDLDeleters.SurfaceDeleter
  | HandleKind.texture => SDLDeleters.TextureDeleter
  | HandleKind.font => SDLDeleters.FontDeleter
  | HandleKind.windowMember => Window.SDLWindowDeleter
  | HandleKind.rendererMember => Window.SDLRendererDeleter

/-- The native release function of each resource kind, applied to a pointer. -/
def HandleKind.releaseCall : HandleKind → Nat → NativeCall
  | HandleKind.window, p => NativeCall.SDL_DestroyWindow p
  | HandleKind.renderer, p => NativeCall.SDL_DestroyRenderer p
  | HandleKind.surface, p => NativeCall.SDL_DestroySurface p
  | HandleKind.texture, p => NativeCall.SDL_DestroyTexture p
  | HandleKind.font, p => NativeCall.TTF_CloseFont p
  | HandleKind.windowMember, p => NativeCall.SDL_DestroyWindow p
  | HandleKind.rendererMember, p => NativeCall.SDL_DestroyRenderer p

/-- An operation of a program on handle variables of one handle type; a
variable is named by a number. -/
inductive HandleOp where
  /-- The declaration `Ptr h(p);`: takes ownership of the raw pointer `p`. -/
  | own (h p : Nat)
  /-- The declaration `Ptr dst(std::move(src));`. -/
  | moveConstruct (dst src : Nat)
  /-- The assignment `dst = std::move(src);`. -/
  | moveAssign (dst src : Nat)
  /-- The call `h.reset(p);`: takes ownership of the raw pointer `p`. -/
  | reset (h p : Nat)
  /-- The end of the lifetime of `h`. -/
  | destroy (h : Nat)
  deriving DecidableEq, Repr

/-- The raw pointer that an operation of the program hands to a handle. -/
def HandleOp.takes : HandleOp → List Nat
  | HandleOp.own _ p => [p]
  | HandleOp.reset _ p => [p]
  | _ => []

/-- The raw pointers that a program hands to its handles, in order: a property
of the program text, whatever the handles do with them. -/
def takenBy (ops : List HandleOp) : List Nat := ops.flatMap HandleOp.takes

/-- The scoping rule of C++ for one operation, given the names in scope: a
declaration needs a name that is not in scope and brings it into scope, any
other operation needs its names in scope, and the end of a lifetime removes
the name.  The answer is the scope afterwards, or `none` for an operation that
is not allowed. -/
def HandleOp.scope (names : List Nat) : HandleOp → Option (List Nat)
  | HandleOp.own h _ => if h ∈ names then none else some (h :: names)
  | HandleOp.moveConstruct dst src =>
    if src ∈ names ∧ dst ∉ names then some (dst :: names) else none
  | HandleOp.moveAssign dst src => if src ∈ names ∧ dst ∈ names then some names else none
  | HandleOp.reset h _ => if h ∈ names then some names else none
  | HandleOp.destroy h => if h ∈ names then some (names.erase h) else none

/-- A program all of whose operations are allowed by the scoping rule. -/
def wellScoped : List Nat → List HandleOp → Bool
  | _, [] => true
  | names, op :: rest =>
    match op.scope names with
    | none => false
    | some names' => wellScoped names' rest

/-- The handle variables alive in a program and the trace of native calls so
far. -/
structure HandleState where
  live : List (Nat × UniquePtr)
  trace : List NativeCall
  deriving DecidableEq, Repr

namespace HandleState

/-- No handle, no call. -/
def empty : HandleState := { live := [], trace := [] }

/-- The handle object of a live variable. -/
def get (vars : List (Nat × UniquePtr)) (h : Nat) : Option UniquePtr :=
  match vars with
  | [] => none
  | (x, u) :: rest => if x = h then some u else get rest h

/-- Replace the handle object of variable `h`. -/
def set (vars : List (Nat × UniquePtr)) (h : Nat) (u : UniquePtr) : List (Nat × UniquePtr) :=
  match vars with
  | [] => []
  | (x, v) :: rest => if x = h then (x, u) :: rest else (x, v) :: set rest h u

/-- Forget variable `h`. -/
def erase (vars : List (Nat × UniquePtr)) (h : Nat) : List (Nat × UniquePtr) :=
  match vars with
  | [] => []
  | (x, v) :: rest => if x = h then rest else (x, v) :: erase rest h

/-- The names of the live variables. -/
def names (vars : List (Nat × UniquePtr)) : List Nat := vars.map Prod.fst

/-- How many live handles store the pointer `p`. -/
def holders (vars : List (Nat × UniquePtr)) (p : Nat) : Nat :=
  (vars.map (fun x => x.2.ptr)).count p

end HandleState

/-- One operation on handles of kind `k`.  An operation that C++ does not allow
(declaring a live name again, using a name that is not alive) leaves the state
as it is. -/
def HandleState.step (k : HandleKind) (s : HandleState) : HandleOp → HandleState
  | HandleOp.own h p =>
    match HandleState.get s.live h with
    | some _ => s
    | none => { s with live := (h, { ptr := p }) :: s.live }
  | HandleOp.moveConstruct dst src =>
    match HandleState.get s.live src, HandleState.get s.live dst with
    | some u, none =>
      { s with live := (dst, { ptr := u.ptr }) :: HandleState.set s.live src { ptr := 0 } }
    | _, _ => s
  | HandleOp.moveAssign dst src =>
    match HandleState.get s.live src with
    | none => s
    | some u =>
      let released := HandleState.set s.live src { ptr := 0 }
      match HandleState.get released dst with
      | none => s
      | some v =>
        let r := v.reset k.deleter u.ptr s.trace
        { live := HandleState.set released dst r.1, trace := r.2 }
  | HandleOp.reset h p =>
    match HandleState.get s.live h with
    | none => s
    | some u =>
      let r := u.reset k.deleter p s.trace
      { live := HandleState.set s.live h r.1, trace := r.2 }
  | HandleOp.destroy h =>
    match HandleState.get s.live h with
    | none => s
    | some u => { live := HandleState.erase s.live h, trace := u.destroy k.deleter s.trace }

/-- A sequence of operations, from a given state. -/
def HandleState.run (k : HandleKind) (s : HandleState) (ops : List HandleOp) : HandleState :=
  ops.foldl (HandleState.step k) s

/-! ## `Window` -/

/-- The answers of SDL that the constructor of `Window` depends on. -/
structure SDL where
  /-- The result of `SDL_CreateWindow(title, width, height, flags)`. -/
  createWindow : String → Int → Int → Nat
  /-- The result of `SDL_CreateRenderer(window, nullptr)`. -/
  createRenderer : Nat → Nat
  /-- The text of `SDL_GetError()`. -/
  getError : String

/-- The data members of `Window`, in declaration order. -/
structure Window where
  window : UniquePtr
  renderer : UniquePtr
  deriving DecidableEq, Repr

namespace Window

/-- The destruction of the members, in reverse declaration order: what
`~Window()` does, and what stack unwinding does when the constructor body
leaves by an exception. -/
def destroyMembers (w : Window) (trace : List NativeCall) : List NativeCall :=
  w.window.destroy SDLWindowDeleter (w.renderer.destroy SDLRendererDeleter trace)

/-- The constructor `Window::Window(title, width, height)`: the result, and the
trace of native calls up to the moment the caller regains control. -/
def construct (sdl : SDL) (title : String) (width height : Int) :
    Except String Window × List NativeCall :=
  let members : Window := { window := { ptr := 0 }, renderer := { ptr := 0 } }
  let w := members.window.reset SDLWindowDeleter (sdl.createWindow title width height)
    [NativeCall.SDL_CreateWindow title width height]
  let members := { members with window := w.1 }
  if members.window.ptr = 0 then
    (Except.error ("Failed to create window: " ++ sdl.getError), destroyMembers members w.2)
  else
    let r := members.renderer.reset SDLRendererDeleter (sdl.createRenderer members.window.ptr)
      (w.2 ++ [NativeCall.SDL_CreateRenderer members.window.ptr])
    let members := { members with renderer := r.1 }
    if members.renderer.ptr = 0 then
      (Except.error ("Failed to create renderer: " ++ sdl.getError), destroyMembers members r.2)
    else (Except.ok members, r.2)

end Window

/-! ## `Text` -/

/-- The data members of `Text`. -/
structure Text where
  renderer : Nat
  font : UniquePtr
  texture : UniquePtr
  width : Int
  height : Int
  deriving DecidableEq, Repr

/-- The answers of SDL and SDL_ttf during one call of `setText`. -/
structure RenderAnswers where
  /-- The result of `TTF_RenderText_Blended`; `0` is `nullptr`. -/
  surface : Nat
  /-- The field `surface->w` of a surface that is not null. -/
  surfaceW : Int
  /-- The field `surface->h` of a surface that is not null. -/
  surfaceH : Int
  /-- The result of `SDL_CreateTextureFromSurface`; `0` is `nullptr`. -/
  texture : Nat
  /-- The text of `SDL_GetError()`. -/
  getError : String
  deriving DecidableEq, Repr

/-- One call `setText(text, color)` together with what the platform answers
during it. -/
structure SetTextCall where
  text : String
  color : SDL_Color
  sdl : RenderAnswers
  deriving DecidableEq, Repr

/-- What one call of `setText` did. -/
structure SetTextOutcome where
  result : Except String Unit
  text : Text
  trace : List NativeCall

namespace Text

/-- The state of a `Text` whose constructor has bound the renderer and the
loaded font: no texture, `width = 0`, `height = 0`. -/
def withFont (renderer font : Nat) : Text :=
  { renderer := renderer, font := { ptr := font }, texture := { ptr := 0 },
    width := 0, height := 0 }

/-- The constructor `Text::Text(renderer, fontName, fontSize)`. -/
def construct (fs : FileSystem) (ttf : Ttf) (m : FontManager) (renderer : Nat)
    (fontName : String) (fontSize : Int) : Except String Text × FontManager :=
  let loaded := loadFont fs ttf m fontName fontSize
  match loaded.result with
  | Except.error what => (Except.error what, loaded.manager)
  | Except.ok font => (Except.ok (withFont renderer font), loaded.manager)

/-- The method `Text::setText`.  The local `SurfacePtr` is destroyed when the
function is left, by return or by exception. -/
def setText (t : Text) (c : SetTextCall) : SetTextOutcome :=
  let rendered := [NativeCall.TTF_RenderText_Blended t.font.ptr c.text c.color]
  let surface : UniquePtr := { ptr := c.sdl.surface }
  if surface.ptr = 0 then
    { result := Except.error ("Failed to render text surface: " ++ c.sdl.getError),
      text := t,
      trace := surface.destroy SDLDeleters.SurfaceDeleter rendered }
  else
    let r := t.texture.reset SDLDeleters.TextureDeleter c.sdl.texture
      (rendered ++ [NativeCall.SDL_CreateTextureFromSurface t.renderer surface.ptr])
    let t1 := { t with texture := r.1 }
    if t1.texture.ptr = 0 then
      { result := Except.error
          ("Failed to create texture from text surface: " ++ c.sdl.getError),
        text := t1,
        trace := surface.destroy SDLDeleters.SurfaceDeleter r.2 }
    else
      { result := Except.ok (),
        text := { t1 with width := c.sdl.surfaceW, height := c.sdl.surfaceH },
        trace := surface.destroy SDLDeleters.SurfaceDeleter r.2 }

/-- The method `Text::getDimensions`: the two output parameters. -/
def getDimensions (t : Text) : Int × Int := (t.width, t.height)

/-- A sequence of `setText` calls on one object, the caller catching the
exception of a failed call before making the next one. -/
def setTextAll (t : Text) (calls : List SetTextCall) : Text :=
  calls.foldl (fun acc c => (setText acc c).text) t

end Text

/-- Whether the platform answers of a call make `setText` succeed: the
rasterized surface and the texture created from it are both non-null. -/
def SetTextCall.succeeds (c : SetTextCall) : Bool :=
  decide (c.sdl.surface ≠ 0) && decide (c.sdl.texture ≠ 0)

/-- The dimensions that the specification ascribes to a `Text` after a sequence
of calls: `(0, 0)` when none succeeded, otherwise the width and height of the
pixel buffer of the most recent call that succeeded. -/
def specDimensions (calls : List SetTextCall) : Int × Int :=
  match (calls.filter SetTextCall.succeeds).getLast? with
  | none => (0, 0)
  | some c => (c.sdl.surfaceW, c.sdl.surfaceH)

/-- The state `Uninitialized` of the specification: no texture, dimensions
`(0, 0)`. -/
def Text.Uninitialized (t : Text) : Prop :=
  t.texture.ptr = 0 ∧ t.width = 0 ∧ t.height = 0

/-- The state `Ready` of the specification after the call `c`: the texture is
the non-null one created during `c`, and the recorded dimensions are those of
the pixel buffer of `c`. -/
def Text.ReadyFrom (t : Text) (c : SetTextCall) : Prop :=
  t.texture.ptr ≠ 0 ∧ t.texture.ptr = c.sdl.texture ∧
    t.width = c.sdl.surfaceW ∧ t.height = c.sdl.surfaceH

/-! ## Notions used to state the properties of the scan -/

/-- A font file in the sense of `updateFontCache`: a regular file whose
lower-cased extension is one of the font extensions. -/
def FsEntry.isFont (e : FsEntry) : Bool :=
  e.isRegularFile && hasFontExtension e.path

/-- The candidate base directories of a filesystem state, in scan order; none
when `current_path()` fails. -/
def FileSystem.candidates (fs : FileSystem) : List Path :=
  match fs.cwd with
  | some cwd => baseSearchPaths cwd
  | none => []

/-- The status query on `p` succeeds and answers that `p` exists. -/
def FileSystem.present (fs : FileSystem) (p : Path) : Bool :=
  match fs.pathExists p with
  | Except.ok true => true
  | _ => false

/-- The base paths that the outer loop gets to: those before the first one
whose status query raises an error. -/
def FileSystem.reachedBases (fs : FileSystem) : List Path → List Path
  | [] => []
  | base :: rest =>
    match fs.pathExists base with
    | Except.error _ => []
    | Except.ok _ => base :: fs.reachedBases rest

/-- The entries that the scan of one base path hands to the loop body: none
when the path does not exist. -/
def FileSystem.yieldedOf (fs : FileSystem) (base : Path) : List FsEntry :=
  if fs.present base then (fs.recursiveDirectoryIterator base).yielded else []

/-- Every entry met by one run of `updateFontCache`, in the order met. -/
def FileSystem.scanned (fs : FileSystem) : List FsEntry :=
  (fs.reachedBases fs.candidates).flatMap fs.yieldedOf

/-- The last font file with filename `n` in a list of entries. -/
def lastFontNamed (n : String) : List FsEntry → Option FsEntry
  | [] => none
  | e :: rest =>
    match lastFontNamed n rest with
    | some found => some found
    | none => if e.isFont && decide (filename e.path = n) then some e else none

/-- The filesystem after the object at `p` has been removed. -/
def FileSystem.remove (fs : FileSystem) (p : Path) : FileSystem :=
  { fs with entries := fs.entries.filter (fun e => decide (e.path ≠ p)) }

/-- A name that a directory entry can have: not empty, and without the
separator. -/
def validName (name : String) : Prop :=
  name.data ≠ [] ∧ '/' ∉ name.data

/-- A path all of whose components are names a directory entry can have. -/
def validPath (p : Path) : Prop := ∀ name ∈ p, validName name

/-- Every candidate base directory that exists is enumerated to its end
without a filesystem error. -/
def FileSystem.enumeratesCleanly (fs : FileSystem) : Prop :=
  ∀ b ∈ fs.candidates, fs.present b = true →
    (fs.recursiveDirectoryIterator b).failed = false

/-- The path `p` lies, at any depth, below one of the candidate base
directories that exists. -/
def FileSystem.underCandidate (fs : FileSystem) (p : Path) : Prop :=
  ∃ b ∈ fs.candidates, fs.present b = true ∧ isUnder b p = true

/-- No cached path is the empty string, the value by which `findFontPath`
reports a miss. -/
def FontCache.pathsNonEmpty (c : FontCache) : Prop :=
  ∀ n v, FontCache.find n c = some v → v ≠ ""

/-- The release balance of handles of kind `k` after a program that handed the
pointers `taken` to its handles: every non-null pointer has been released as
often as it was handed over, less the number of live handles that still store
it; and the trace holds nothing but releases of non-null pointers. -/
def HandleState.balanced (k : HandleKind) (s : HandleState) (taken : List Nat) : Prop :=
  (∀ r, r ≠ 0 →
    taken.count r = s.trace.count (k.releaseCall r) + HandleState.holders s.live r) ∧
  (∀ c ∈ s.trace, ∃ r, r ≠ 0 ∧ c = k.releaseCall r)

/-- A small project tree used in examples: `/proj/game` is the working
directory, with one font below `assets/fonts`. -/
def fsDemo : FileSystem :=
  { cwd := some ["proj", "game"],
    statusFails := [],
    entries :=
      [ { path := ["proj"], kind := Kind.dir true },
        { path := ["proj", "game"], kind := Kind.dir true },
        { path := ["proj", "game", "assets"], kind := Kind.dir true },
        { path := ["proj", "game", "assets", "fonts"], kind := Kind.dir true },
        { path := ["proj", "game", "assets", "fonts", "A.TTF"], kind := Kind.file true },
        { path := ["proj", "game", "assets", "fonts", "notes.txt"], kind := Kind.file true },
        { path := ["proj", "game", "assets", "x.otf"], kind := Kind.dir true } ] }

/-- The answers of an SDL_ttf that starts and opens every font. -/
def ttfOk : Ttf := { init := true, openFont := fun _ _ => 1, getError := "" }

/-- The project tree before a font is added: `assets` holds a directory that
cannot be opened. -/
def fsLockedBefore : FileSystem :=
  { cwd := some ["proj", "game"],
    statusFails := [],
    entries :=
      [ { path := ["proj"], kind := Kind.dir true },
        { path := ["proj", "game"], kind := Kind.dir true },
        { path := ["proj", "game", "assets"], kind := Kind.dir true },
        { path := ["proj", "game", "assets", "private"], kind := Kind.dir false } ] }

/-- The same tree after `New.ttf` has been created in `assets`; directory
iteration meets `private` first. -/
def fsLocked : FileSystem :=
  { cwd := some ["proj", "game"],
    statusFails := [],
    entries :=
      [ { path := ["proj"], kind := Kind.dir true },
        { path := ["proj", "game"], kind := Kind.dir true },
        { path := ["proj", "game", "assets"], kind := Kind.dir true },
        { path := ["proj", "game", "assets", "private"], kind := Kind.dir false },
        { path := ["proj", "game", "assets", "New.ttf"], kind := Kind.file true } ] }

/-- A tree in which `Font.ttf` exists below the first candidate directory
`/proj/game/assets` and below the third one `/proj/assets`, where directory
iteration meets the unreadable `private` before the font. -/
def fsShadow : FileSystem :=
  { cwd := some ["proj", "game"],
    statusFails := [],
    entries :=
      [ { path := ["proj"], kind := Kind.dir true },
        { path := ["proj", "assets"], kind := Kind.dir true },
        { path := ["proj", "assets", "private"], kind := Kind.dir false },
        { path := ["proj", "assets", "Font.ttf"], kind := Kind.file true },
        { path := ["proj", "game"], kind := Kind.dir true },
        { path := ["proj", "game", "assets"], kind := Kind.dir true },
        { path := ["proj", "game", "assets", "Font.ttf"], kind := Kind.file true } ] }

/-- A tree in which `Font.ttf` exists below the first candidate directory
`/proj/game/assets` and below the third one `/proj/assets`, all of it
readable. -/
def fsTwo : FileSystem :=
  { cwd := some ["proj", "game"],
    statusFails := [],
    entries :=
      [ { path := ["proj"], kind := Kind.dir true },
        { path := ["proj", "assets"], kind := Kind.dir true },
        { path := ["proj", "assets", "Font.ttf"], kind := Kind.file true },
        { path := ["proj", "game"], kind := Kind.dir true },
        { path := ["proj", "game", "assets"], kind := Kind.dir true },
        { path := ["proj", "game", "assets", "Font.ttf"], kind := Kind.file true } ] }

/-- A tree with fonts below the first candidate directory `/proj/game/assets`
and below the third one `/proj/assets`, and a directory `/proj/game/src` that
lacks search permission, so that the status of the second candidate path
`/proj/game/src/assets` cannot be determined. -/
def fsStatusDenied : FileSystem :=
  { cwd := some ["proj", "game"],
    statusFails := [["proj", "game", "src", "assets"]],
    entries :=
      [ { path := ["proj"], kind := Kind.dir true },
        { path := ["proj", "assets"], kind := Kind.dir true },
        { path := ["proj", "assets", "Other.ttf"], kind := Kind.file true },
        { path := ["proj", "game"], kind := Kind.dir true },
        { path := ["proj", "game", "assets"], kind := Kind.dir true },
        { path := ["proj", "game", "assets", "Font.ttf"], kind := Kind.file true },
        { path := ["proj", "game", "src"], kind := Kind.dir true } ] }

/-- A successful `setText` whose pixel buffer is 120 by 40, followed by one
whose rasterization succeeds and whose texture creation fails. -/
def callsFailAtTexture : List SetTextCall :=
  [ { text := "Hello World!", color := { r := 255, g := 255, b := 255, a := 255 },
      sdl := { surface := 10, surfaceW := 120, surfaceH := 40, texture := 20, getError := "" } },
    { text := "Bye", color := { r := 255, g := 255, b := 255, a := 255 },
      sdl := { surface := 11, surfaceW := 30, surfaceH := 40, texture := 0,
               getError := "out of memory" } } ]

/-- The answers of an SDL that creates window `7` and no renderer. -/
def sdlNoRenderer : SDL :=
  { createWindow := fun _ _ _ => 7, createRenderer := fun _ => 0, getError := "no driver" }

/-- The answers of an SDL that creates no window. -/
def sdlNoWindow : SDL :=
  { createWindow := fun _ _ _ => 0, createRenderer := fun _ => 9, getError := "no display" }

/-- The manager after `initialize()` ran on `fsLockedBefore`. -/
def managerLocked : FontManager := (initFontManager fsLockedBefore ttfOk FontManager.fresh).2

/-- The manager after `initialize()` ran on `fsDemo`. -/
def managerDemo : FontManager := (initFontManager fsDemo ttfOk FontManager.fresh).2


/-! ## The cache as a mapping -/

theorem FontCache.find_assign (c : FontCache) (k v k' : String) :
    FontCache.find k' (FontCache.assign k v c) =
      if k = k' then some v else FontCache.find k' c := by
  induction c with
  | nil =>
    by_cases h : k = k' <;> simp [FontCache.assign, FontCache.find, h]
  | cons kv rest ih =>
    obtain ⟨k0, v0⟩ := kv
    by_cases h0 : k0 = k
    · subst h0
      by_cases h : k0 = k' <;> simp [FontCache.assign, FontCache.find, h]
    · by_cases h1 : k0 = k'
      · subst h1
        have : ¬ k = k0 := fun e => h0 e.symm
        simp [FontCache.assign, FontCache.find, h0, this]
      · simp [FontCache.assign, FontCache.find, h0, h1, ih]

theorem find_scanEntry (c : FontCache) (e : FsEntry) (n : String) :
    FontCache.find n (scanEntry c e) =
      if e.isFont && decide (filename e.path = n) then some (pathString e.path)
      else FontCache.find n c := by
  unfold scanEntry FsEntry.isFont
  by_cases hr : e.isRegularFile = true
  · by_cases hx : hasFontExtension e.path = true
    · by_cases hn : filename e.path = n <;> simp [hr, hx, hn, FontCache.find_assign]
    · simp [hr, hx]
  · simp [hr]

theorem find_foldl_scanEntry (n : String) (l : List FsEntry) (c : FontCache) :
    FontCache.find n (l.foldl scanEntry c) =
      match lastFontNamed n l with
      | some e => some (pathString e.path)
      | none => FontCache.find n c := by
  induction l generalizing c with
  | nil => simp [lastFontNamed]
  | cons e rest ih =>
    simp only [List.foldl_cons, ih, lastFontNamed]
    cases hrest : lastFontNamed n rest with
    | some found => simp
    | none =>
      simp only [find_scanEntry]
      by_cases hp : (e.isFont && decide (filename e.path = n)) = true
      · simp [hp]
      · simp [hp]

theorem scanBases_cache (fs : FileSystem) (bases : List Path) (cache : FontCache)
    (trace : List FsCall) :
    (scanBases fs bases (cache, trace)).2.1 =
      ((fs.reachedBases bases).flatMap fs.yieldedOf).foldl scanEntry cache := by
  induction bases generalizing cache trace with
  | nil => simp [scanBases, FileSystem.reachedBases]
  | cons b rest ih =>
    rw [scanBases, FileSystem.reachedBases]
    cases hpe : fs.pathExists b with
    | error what => simp
    | ok v =>
      cases v with
      | false =>
        simp only [ih, List.flatMap_cons, List.foldl_append]
        simp [FileSystem.yieldedOf, FileSystem.present, hpe]
      | true =>
        have hy : fs.yieldedOf b = (fs.recursiveDirectoryIterator b).yielded := by
          simp [FileSystem.yieldedOf, FileSystem.present, hpe]
        by_cases hf : (fs.recursiveDirectoryIterator b).failed = true
        · simp [scanDirectory, hf, ih, hy, List.flatMap_cons, List.foldl_append]
        · simp [scanDirectory, hf, ih, hy, List.flatMap_cons, List.foldl_append]

theorem scanBases_count_clear (fs : FileSystem) (bases : List Path) (cache : FontCache)
    (trace : List FsCall) :
    (scanBases fs bases (cache, trace)).2.2.count FsCall.clear = trace.count FsCall.clear := by
  induction bases generalizing cache trace with
  | nil => simp [scanBases]
  | cons b rest ih =>
    rw [scanBases]
    cases hpe : fs.pathExists b with
    | error what => simp [List.count_append, List.count_cons]
    | ok v =>
      cases v with
      | false => simp [ih, List.count_append, List.count_cons]
      | true =>
        by_cases hf : (fs.recursiveDirectoryIterator b).failed = true
        · simp [scanDirectory, hf, ih, List.count_append, List.count_cons]
        · simp [scanDirectory, hf, ih, List.count_append, List.count_cons]

theorem scanBases_ok_reached (fs : FileSystem) (bases : List Path) (cache : FontCache)
    (trace : List FsCall) (h : (scanBases fs bases (cache, trace)).1 = Except.ok ()) :
    fs.reachedBases bases = bases := by
  induction bases generalizing cache trace with
  | nil => simp [FileSystem.reachedBases]
  | cons b rest ih =>
    rw [scanBases] at h
    rw [FileSystem.reachedBases]
    cases hpe : fs.pathExists b with
    | error what => simp [hpe] at h
    | ok v =>
      cases v with
      | false =>
        simp only [hpe] at h
        simp [ih _ _ h]
      | true =>
        by_cases hf : (fs.recursiveDirectoryIterator b).failed = true
        · simp only [hpe, scanDirectory, hf, if_true] at h
          simp [ih _ _ h]
        · simp only [hpe, scanDirectory, hf] at h
          simp [ih _ _ h]

theorem scanBases_ok_of_status (fs : FileSystem) (bases : List Path) (cache : FontCache)
    (trace : List FsCall) (h : ∀ b ∈ bases, b ∉ fs.statusFails) :
    (scanBases fs bases (cache, trace)).1 = Except.ok () := by
  induction bases generalizing cache trace with
  | nil => simp [scanBases]
  | cons b rest ih =>
    have hb : b ∉ fs.statusFails := h b (List.mem_cons_self _ _)
    have hrest : ∀ x ∈ rest, x ∉ fs.statusFails := fun x hx => h x (List.mem_cons_of_mem _ hx)
    rw [scanBases]
    cases hpe : fs.pathExists b with
    | error what => simp [FileSystem.pathExists, hb] at hpe
    | ok v =>
      cases v with
      | false => exact ih _ _ hrest
      | true =>
        by_cases hf : (fs.recursiveDirectoryIterator b).failed = true
        · simp only [scanDirectory, hf, if_true]
          exact ih _ _ hrest
        · simp only [scanDirectory, hf]
          exact ih _ _ hrest

theorem reachedBases_subset (fs : FileSystem) (bases : List Path) :
    ∀ b ∈ fs.reachedBases bases, b ∈ bases := by
  induction bases with
  | nil => simp [FileSystem.reachedBases]
  | cons x rest ih =>
    intro b hb
    rw [FileSystem.reachedBases] at hb
    cases hpe : fs.pathExists x with
    | error what => simp [hpe] at hb
    | ok v =>
      simp only [hpe, List.mem_cons] at hb
      rcases hb with hb | hb
      · exact hb ▸ List.mem_cons_self _ _
      · exact List.mem_cons_of_mem _ (ih b hb)

/-- The cache left by `updateFontCache`, whether it returned or threw, is the
fold of the loop body over the entries met, starting from the cleared map. -/
theorem updateFontCache_cache (fs : FileSystem) (m : FontManager) :
    (updateFontCache fs m).manager.fontCache = fs.scanned.foldl scanEntry [] := by
  unfold updateFontCache FileSystem.scanned FileSystem.candidates FileSystem.currentPath
  cases fs.cwd with
  | none => simp [FileSystem.reachedBases]
  | some cwd => simp [scanBases_cache]

/-- A call of `updateFontCache` that returns has got to every candidate base
path. -/
theorem updateFontCache_done_reached {fs : FileSystem} {m : FontManager}
    (h : (updateFontCache fs m).result = Except.ok ()) :
    fs.reachedBases fs.candidates = fs.candidates := by
  unfold updateFontCache FileSystem.currentPath at h
  unfold FileSystem.candidates
  cases hc : fs.cwd with
  | none => simp [hc] at h
  | some cwd =>
    simp only [hc] at h
    exact scanBases_ok_reached fs _ _ _ h

/-- A call of `updateFontCache` returns when `current_path()` and the status
queries on the candidate base paths succeed. -/
theorem updateFontCache_done_of_status {fs : FileSystem} (m : FontManager)
    (hcwd : fs.cwd ≠ none) (hstatus : ∀ b ∈ fs.candidates, b ∉ fs.statusFails) :
    (updateFontCache fs m).result = Except.ok () := by
  unfold updateFontCache FileSystem.currentPath
  unfold FileSystem.candidates at hstatus
  cases hc : fs.cwd with
  | none => exact absurd hc hcwd
  | some cwd =>
    simp only [hc] at hstatus ⊢
    exact scanBases_ok_of_status fs _ _ _ hstatus

/-- Every call of `updateFontCache` clears the cache exactly once. -/
theorem updateFontCache_count_clear (fs : FileSystem) (m : FontManager) :
    (updateFontCache fs m).trace.count FsCall.clear = 1 := by
  unfold updateFontCache FileSystem.currentPath
  cases fs.cwd with
  | none => simp
  | some cwd => simp [scanBases_count_clear]

/-- The rebuilt cache maps a name to the path of the last font file of that
name met by the scan. -/
theorem find_updateFontCache (fs : FileSystem) (m : FontManager) (n : String) :
    FontCache.find n (updateFontCache fs m).manager.fontCache =
      (lastFontNamed n fs.scanned).map (fun e => pathString e.path) := by
  rw [updateFontCache_cache, find_foldl_scanEntry]
  cases lastFontNamed n fs.scanned <;> simp [FontCache.find]


/-! ## Facts about the notions of the scan -/

theorem lastFontNamed_some {n : String} {l : List FsEntry} {e : FsEntry}
    (h : lastFontNamed n l = some e) :
    e ∈ l ∧ e.isFont = true ∧ filename e.path = n := by
  induction l with
  | nil => simp [lastFontNamed] at h
  | cons x rest ih =>
    simp only [lastFontNamed] at h
    cases hrest : lastFontNamed n rest with
    | some found =>
      rw [hrest] at h
      simp only [Option.some.injEq] at h
      subst h
      obtain ⟨h1, h2, h3⟩ := ih hrest
      exact ⟨List.mem_cons_of_mem _ h1, h2, h3⟩
    | none =>
      rw [hrest] at h
      by_cases hp : (x.isFont && decide (filename x.path = n)) = true
      · simp only [hp, if_true, Option.some.injEq] at h
        subst h
        simp only [Bool.and_eq_true, decide_eq_true_eq] at hp
        exact ⟨List.mem_cons_self _ _, hp.1, hp.2⟩
      · simp [hp] at h

theorem lastFontNamed_none {n : String} {l : List FsEntry} (h : lastFontNamed n l = none)
    (e : FsEntry) (he : e ∈ l) (hf : e.isFont = true) : filename e.path ≠ n := by
  induction l with
  | nil => simp at he
  | cons x rest ih =>
    simp only [lastFontNamed] at h
    cases hrest : lastFontNamed n rest with
    | some found => rw [hrest] at h; simp at h
    | none =>
      rw [hrest] at h
      rcases List.mem_cons.mp he with hx | hx
      · subst hx
        intro hn
        simp [hf, hn] at h
      · exact ih hrest hx

theorem lastFontNamed_append (n : String) (l1 l2 : List FsEntry) :
    lastFontNamed n (l1 ++ l2) =
      match lastFontNamed n l2 with
      | some e => some e
      | none => lastFontNamed n l1 := by
  induction l1 with
  | nil => cases h : lastFontNamed n l2 <;> simp [lastFontNamed, h]
  | cons x rest ih =>
    rw [List.cons_append, lastFontNamed, ih]
    cases h : lastFontNamed n l2 <;> simp [lastFontNamed]

theorem lastFontNamed_isSome_of_mem {n : String} {l : List FsEntry} {e : FsEntry}
    (he : e ∈ l) (hf : e.isFont = true) (hn : filename e.path = n) :
    ∃ found, lastFontNamed n l = some found := by
  cases h : lastFontNamed n l with
  | some found => exact ⟨found, rfl⟩
  | none => exact absurd hn (lastFontNamed_none h e he hf)

theorem walk_yielded_prefix (l : List FsEntry) :
    ∃ rest, l = (walk l).yielded ++ rest := by
  induction l with
  | nil => exact ⟨[], by simp [walk]⟩
  | cons e tl ih =>
    obtain ⟨rest, hrest⟩ := ih
    unfold walk
    split
    · exact ⟨tl, by simp⟩
    · exact ⟨rest, by simp [← hrest]⟩

theorem walk_yielded_mem {l : List FsEntry} {e : FsEntry} (h : e ∈ (walk l).yielded) :
    e ∈ l := by
  obtain ⟨rest, hrest⟩ := walk_yielded_prefix l
  rw [hrest]
  exact List.mem_append_left _ h

theorem walk_clean {l : List FsEntry} (h : (walk l).failed = false) :
    (walk l).yielded = l := by
  induction l with
  | nil => simp [walk]
  | cons e tl ih =>
    unfold walk at h ⊢
    split
    · next hk => simp [hk] at h
    · next hk =>
      split at h
      · next hk2 => exact absurd hk2 (by simpa using hk)
      · simp only at h
        simp [ih h]

theorem isUnder_iff (b p : Path) :
    isUnder b p = true ↔ ∃ rel, rel ≠ [] ∧ p = b ++ rel := by
  induction b generalizing p with
  | nil =>
    cases p with
    | nil => simp [isUnder]
    | cons c cs => simp [isUnder]
  | cons x xs ih =>
    cases p with
    | nil => simp [isUnder]
    | cons c cs =>
      simp only [isUnder, Bool.and_eq_true, decide_eq_true_eq, ih, List.cons_append,
        List.cons.injEq]
      constructor
      · rintro ⟨rfl, rel, h1, h2⟩
        exact ⟨rel, h1, rfl, h2⟩
      · rintro ⟨rel, h1, h2, h3⟩
        exact ⟨h2.symm, rel, h1, h3⟩

theorem yieldedOf_mem {fs : FileSystem} {b : Path} {e : FsEntry} (h : e ∈ fs.yieldedOf b) :
    fs.present b = true ∧ e ∈ fs.entries ∧ isUnder b e.path = true := by
  unfold FileSystem.yieldedOf at h
  by_cases hex : fs.present b = true
  · simp only [hex, if_true] at h
    unfold FileSystem.recursiveDirectoryIterator at h
    split at h
    · have hm := walk_yielded_mem h
      rw [List.mem_filter] at hm
      exact ⟨hex, hm.1, hm.2⟩
    · simp at h
  · simp [hex] at h

theorem yieldedOf_clean {fs : FileSystem} {b : Path} (hex : fs.present b = true)
    (hok : (fs.recursiveDirectoryIterator b).failed = false) :
    fs.yieldedOf b = fs.entries.filter (fun e => isUnder b e.path) := by
  unfold FileSystem.yieldedOf
  simp only [hex, if_true]
  unfold FileSystem.recursiveDirectoryIterator at hok ⊢
  split
  · next hk =>
    rw [hk] at hok
    exact walk_clean hok
  · next hk =>
    split at hok
    · next hk2 => exact absurd hk2 (hk)
    · simp at hok

theorem mem_scanned {fs : FileSystem} {e : FsEntry} (h : e ∈ fs.scanned) :
    ∃ b ∈ fs.candidates, e ∈ fs.yieldedOf b := by
  unfold FileSystem.scanned at h
  obtain ⟨b, hb, he⟩ := List.mem_flatMap.mp h
  exact ⟨b, reachedBases_subset fs _ b hb, he⟩

theorem mem_scanned_of_done {fs : FileSystem} {m : FontManager}
    (hdone : (updateFontCache fs m).result = Except.ok ()) {e : FsEntry} :
    e ∈ fs.scanned ↔ ∃ b ∈ fs.candidates, e ∈ fs.yieldedOf b := by
  unfold FileSystem.scanned
  rw [updateFontCache_done_reached hdone, List.mem_flatMap]

theorem FontCache.mem_keys_iff (c : FontCache) (n : String) :
    n ∈ FontCache.keys c ↔ ∃ v, FontCache.find n c = some v := by
  induction c with
  | nil => simp [FontCache.keys, FontCache.find]
  | cons kv rest ih =>
    obtain ⟨k, v⟩ := kv
    simp only [FontCache.keys, List.map_cons, List.mem_cons, FontCache.find] at ih ⊢
    by_cases h : k = n
    · subst h; simp
    · have h' : ¬ n = k := fun e => h e.symm
      simp [h, h', ih]

theorem pathChars_ne_nil (p : Path) : pathChars p ≠ [] := by
  match p with
  | [] => simp [pathChars]
  | [c] => simp [pathChars]
  | c :: d :: rest => simp [pathChars]

theorem pathString_ne_empty (p : Path) : pathString p ≠ "" := by
  intro h
  have := congrArg String.data h
  exact pathChars_ne_nil p (by simpa [pathString] using this)


/-! ## Reachable managers -/

theorem loadError_ne (e n : String) :
    "Failed to load font! SDL_Error: " ++ e ≠ "Could not find font: " ++ n := by
  intro h
  have := congrArg (fun s => s.data.head?) h
  simp [String.data_append] at this

theorem updateFontCache_pathsNonEmpty (fs : FileSystem) (m : FontManager) :
    FontCache.pathsNonEmpty (updateFontCache fs m).manager.fontCache := by
  intro n v h
  rw [find_updateFontCache] at h
  cases hl : lastFontNamed n fs.scanned with
  | none => simp [hl] at h
  | some e =>
    simp only [hl, Option.map_some', Option.some.injEq] at h
    rw [← h]
    exact pathString_ne_empty e.path

theorem loadFont_hit (fs : FileSystem) (ttf : Ttf) (m : FontManager) (n : String) (s : Int)
    (hi : m.initialized = true) (h : findFontPath m n ≠ "") :
    loadFont fs ttf m n s = openResolved ttf m [] (findFontPath m n) s := by
  simp [loadFont, hi, h]

theorem loadFont_miss_error (fs : FileSystem) (ttf : Ttf) (m : FontManager) (n : String)
    (s : Int) (hi : m.initialized = true) (h : findFontPath m n = "") (what : String)
    (hres : (updateFontCache fs m).result = Except.error what) :
    loadFont fs ttf m n s =
      { result := Except.error what, manager := (updateFontCache fs m).manager,
        trace := (updateFontCache fs m).trace } := by
  simp [loadFont, hi, h, hres]

theorem loadFont_miss_notFound (fs : FileSystem) (ttf : Ttf) (m : FontManager) (n : String)
    (s : Int) (hi : m.initialized = true) (h : findFontPath m n = "")
    (hres : (updateFontCache fs m).result = Except.ok ())
    (h2 : findFontPath (updateFontCache fs m).manager n = "") :
    loadFont fs ttf m n s =
      { result := Except.error ("Could not find font: " ++ n),
        manager := (updateFontCache fs m).manager,
        trace := (updateFontCache fs m).trace } := by
  simp [loadFont, hi, h, hres, h2]

theorem loadFont_miss_open (fs : FileSystem) (ttf : Ttf) (m : FontManager) (n : String)
    (s : Int) (hi : m.initialized = true) (h : findFontPath m n = "")
    (hres : (updateFontCache fs m).result = Except.ok ())
    (h2 : findFontPath (updateFontCache fs m).manager n ≠ "") :
    loadFont fs ttf m n s =
      openResolved ttf (updateFontCache fs m).manager (updateFontCache fs m).trace
        (findFontPath (updateFontCache fs m).manager n) s := by
  simp [loadFont, hi, h, hres, h2]

theorem result_cases (r : Except String Unit) :
    r = Except.ok () ∨ ∃ what, r = Except.error what := by
  cases r with
  | ok u => exact Or.inl rfl
  | error what => exact Or.inr ⟨what, rfl⟩

theorem openResolved_manager (ttf : Ttf) (m : FontManager) (trace : List FsCall)
    (path : String) (s : Int) : (openResolved ttf m trace path s).manager = m := by
  unfold openResolved
  by_cases h : ttf.openFont path s = 0 <;> simp [h]

theorem openResolved_trace (ttf : Ttf) (m : FontManager) (trace : List FsCall)
    (path : String) (s : Int) :
    (openResolved ttf m trace path s).trace = trace ++ [FsCall.openFont path s] := by
  unfold openResolved
  by_cases h : ttf.openFont path s = 0 <;> simp [h]

theorem openResolved_result_ne (ttf : Ttf) (m : FontManager) (trace : List FsCall)
    (path : String) (s : Int) (n : String) :
    (openResolved ttf m trace path s).result ≠ Except.error ("Could not find font: " ++ n) := by
  unfold openResolved
  by_cases h : ttf.openFont path s = 0
  · simp only [h, if_true]
    intro e
    exact loadError_ne _ _ (Except.error.inj e)
  · simp only [h, if_false]
    intro e
    cases e

theorem loadFont_manager (fs : FileSystem) (ttf : Ttf) (m : FontManager) (n : String)
    (s : Int) :
    (loadFont fs ttf m n s).manager = m ∨
      (loadFont fs ttf m n s).manager = (updateFontCache fs m).manager := by
  by_cases hi : m.initialized = true
  · by_cases h1 : findFontPath m n = ""
    · right
      rcases result_cases (updateFontCache fs m).result with hres | ⟨what, hres⟩
      · by_cases h2 : findFontPath (updateFontCache fs m).manager n = ""
        · rw [loadFont_miss_notFound fs ttf m n s hi h1 hres h2]
        · rw [loadFont_miss_open fs ttf m n s hi h1 hres h2, openResolved_manager]
      · rw [loadFont_miss_error fs ttf m n s hi h1 what hres]
    · left
      rw [loadFont_hit fs ttf m n s hi h1, openResolved_manager]
  · left
    simp [loadFont, hi]

theorem reachable_pathsNonEmpty {m : FontManager} (h : Reachable m) :
    FontCache.pathsNonEmpty m.fontCache := by
  induction h with
  | fresh => intro n v h; simp [FontManager.fresh, FontCache.find] at h
  | init fs ttf m _ ih =>
    unfold initFontManager
    by_cases hi : ttf.init = true
    · simp only [hi, Bool.not_true, Bool.false_eq_true, if_false]
      exact updateFontCache_pathsNonEmpty fs _
    · simpa [hi] using ih
  | loadFont fs ttf m n s _ ih =>
    rcases loadFont_manager fs ttf m n s with h | h
    · rw [h]; exact ih
    · rw [h]; exact updateFontCache_pathsNonEmpty fs m
  | shutdown m _ ih =>
    unfold shutdown
    by_cases hi : m.initialized = true
    · simpa [hi] using ih
    · simpa [hi] using ih

theorem findFontPath_eq_empty_iff {m : FontManager} (h : FontCache.pathsNonEmpty m.fontCache)
    (n : String) : findFontPath m n = "" ↔ n ∉ FontCache.keys m.fontCache := by
  rw [FontCache.mem_keys_iff]
  unfold findFontPath
  cases hf : FontCache.find n m.fontCache with
  | none => simp
  | some v =>
    have := h n v hf
    simp [this]

theorem scanBases_error (fs : FileSystem) (bases : List Path) (cache : FontCache)
    (trace : List FsCall) (what : String)
    (h : (scanBases fs bases (cache, trace)).1 = Except.error what) :
    what = "filesystem error: cannot get file status" := by
  induction bases generalizing cache trace with
  | nil => simp [scanBases] at h
  | cons b rest ih =>
    rw [scanBases] at h
    cases hpe : fs.pathExists b with
    | error e =>
      simp only [hpe, Except.error.injEq] at h
      unfold FileSystem.pathExists at hpe
      by_cases hb : b ∈ fs.statusFails
      · simp only [hb, if_true, Except.error.injEq] at hpe
        rw [← h, ← hpe]
      · simp [hb] at hpe
    | ok v =>
      cases v with
      | false =>
        simp only [hpe] at h
        exact ih _ _ h
      | true =>
        by_cases hf : (fs.recursiveDirectoryIterator b).failed = true
        · simp only [hpe, scanDirectory, hf, if_true] at h
          exact ih _ _ h
        · simp only [hpe, scanDirectory, hf] at h
          exact ih _ _ h

theorem updateFontCache_error (fs : FileSystem) (m : FontManager) (what : String)
    (h : (updateFontCache fs m).result = Except.error what) :
    what = "filesystem error: cannot get current path" ∨
      what = "filesystem error: cannot get file status" := by
  unfold updateFontCache FileSystem.currentPath at h
  cases hc : fs.cwd with
  | none =>
    simp only [hc, Except.error.injEq] at h
    exact Or.inl h.symm
  | some cwd =>
    simp only [hc] at h
    exact Or.inr (scanBases_error fs _ _ _ what h)

theorem filesystemError_ne (fs : FileSystem) (m : FontManager) (what n : String)
    (h : (updateFontCache fs m).result = Except.error what) :
    what ≠ "Could not find font: " ++ n := by
  intro e
  rcases updateFontCache_error fs m what h with hw | hw
  · rw [hw] at e
    have := congrArg (fun s => s.data.head?) e
    simp [String.data_append] at this
  · rw [hw] at e
    have := congrArg (fun s => s.data.head?) e
    simp [String.data_append] at this

/-- When the scan returns and enumerates cleanly, it meets exactly the objects
below the candidate directories that exist. -/
theorem mem_scanned_of_clean {fs : FileSystem} {m : FontManager}
    (hdone : (updateFontCache fs m).result = Except.ok ())
    (hclean : fs.enumeratesCleanly) (e : FsEntry) :
    e ∈ fs.scanned ↔ e ∈ fs.entries ∧ fs.underCandidate e.path := by
  rw [mem_scanned_of_done hdone]
  constructor
  · rintro ⟨b, hb, he⟩
    obtain ⟨h1, h2, h3⟩ := yieldedOf_mem he
    exact ⟨h2, b, hb, h1, h3⟩
  · rintro ⟨he, b, hb, hex, hu⟩
    refine ⟨b, hb, ?_⟩
    rw [yieldedOf_clean hex (hclean b hb hex), List.mem_filter]
    exact ⟨he, hu⟩

theorem mem_keys_updateFontCache (fs : FileSystem) (m : FontManager) (n : String) :
    n ∈ FontCache.keys (updateFontCache fs m).manager.fontCache ↔
      ∃ e ∈ fs.scanned, e.isFont = true ∧ filename e.path = n := by
  rw [FontCache.mem_keys_iff]
  constructor
  · rintro ⟨v, hv⟩
    rw [find_updateFontCache] at hv
    cases hl : lastFontNamed n fs.scanned with
    | none => simp [hl] at hv
    | some e =>
      obtain ⟨h1, h2, h3⟩ := lastFontNamed_some hl
      exact ⟨e, h1, h2, h3⟩
  · rintro ⟨e, h1, h2, h3⟩
    obtain ⟨found, hfound⟩ := lastFontNamed_isSome_of_mem h1 h2 h3
    exact ⟨pathString found.path, by rw [find_updateFontCache, hfound]; rfl⟩

theorem notFound_iff_of_pathsNonEmpty (fs : FileSystem) (ttf : Ttf) (m : FontManager)
    (hinv : FontCache.pathsNonEmpty m.fontCache) (hi : m.initialized = true)
    (n : String) (s : Int)
    (hdone : n ∉ FontCache.keys m.fontCache → (updateFontCache fs m).result = Except.ok ()) :
    (loadFont fs ttf m n s).result = Except.error ("Could not find font: " ++ n) ↔
      n ∉ FontCache.keys m.fontCache ∧
      n ∉ FontCache.keys (updateFontCache fs m).manager.fontCache := by
  have hm := findFontPath_eq_empty_iff hinv n
  have hu := findFontPath_eq_empty_iff (updateFontCache_pathsNonEmpty fs m) n
  by_cases h1 : findFontPath m n = ""
  · have hres := hdone (hm.mp h1)
    by_cases h2 : findFontPath (updateFontCache fs m).manager n = ""
    · rw [loadFont_miss_notFound fs ttf m n s hi h1 hres h2]
      exact ⟨fun _ => ⟨hm.mp h1, hu.mp h2⟩, fun _ => rfl⟩
    · rw [loadFont_miss_open fs ttf m n s hi h1 hres h2]
      constructor
      · intro h
        exact absurd h (openResolved_result_ne _ _ _ _ _ _)
      · intro h
        exact absurd (hu.mpr h.2) h2
  · rw [loadFont_hit fs ttf m n s hi h1]
    constructor
    · intro h
      exact absurd h (openResolved_result_ne _ _ _ _ _ _)
    · intro h
      exact absurd (hm.mpr h.1) h1

/-! ## The font directory cache after a scan -/

/-- C4. After `updateFontCache` completes on a filesystem whose candidate
directories all enumerate without error, `n` is a key of the cache exactly when
a regular file with filename `n` lies, at any depth, below a candidate base
directory that exists and its lower-cased extension is `.ttf`, `.otf` or
`.ttc`; the key is that filename unchanged, and the value mapped to `n` is the
path string of such a file, whose last component is `n`. -/
theorem updateFontCache_keys_iff (fs : FileSystem) (m : FontManager)
    (hdone : (updateFontCache fs m).result = Except.ok ())
    (hclean : fs.enumeratesCleanly) (n : String) :
    (n ∈ FontCache.keys (updateFontCache fs m).manager.fontCache ↔
      ∃ e ∈ fs.entries, e.isRegularFile = true ∧ lowerExtension e.path ∈ fontExtensions ∧
        filename e.path = n ∧ fs.underCandidate e.path) ∧
    (∀ v, FontCache.find n (updateFontCache fs m).manager.fontCache = some v →
      ∃ e ∈ fs.entries, e.isRegularFile = true ∧ lowerExtension e.path ∈ fontExtensions ∧
        filename e.path = n ∧ fs.underCandidate e.path ∧ v = pathString e.path) := by
  constructor
  · rw [mem_keys_updateFontCache]
    constructor
    · rintro ⟨e, he, hf, hn⟩
      obtain ⟨h1, h2⟩ := (mem_scanned_of_clean hdone hclean e).mp he
      simp only [FsEntry.isFont, hasFontExtension, Bool.and_eq_true, decide_eq_true_eq] at hf
      exact ⟨e, h1, hf.1, hf.2, hn, h2⟩
    · rintro ⟨e, he, hr, hx, hn, hu⟩
      refine ⟨e, (mem_scanned_of_clean hdone hclean e).mpr ⟨he, hu⟩, ?_, hn⟩
      simp [FsEntry.isFont, hasFontExtension, hr, hx]
  · intro v hv
    rw [find_updateFontCache] at hv
    cases hl : lastFontNamed n fs.scanned with
    | none => simp [hl] at hv
    | some e =>
      simp only [hl, Option.map_some', Option.some.injEq] at hv
      obtain ⟨he, hf, hn⟩ := lastFontNamed_some hl
      obtain ⟨h1, h2⟩ := (mem_scanned_of_clean hdone hclean e).mp he
      simp only [FsEntry.isFont, hasFontExtension, Bool.and_eq_true, decide_eq_true_eq] at hf
      exact ⟨e, h1, hf.1, hf.2, hn, h2, hv.symm⟩

theorem fsDemo_enumeratesCleanly : fsDemo.enumeratesCleanly := by
  unfold FileSystem.enumeratesCleanly
  decide

/-- The statement of C4 at the tree `fsDemo`, whose only font is `A.TTF`: the
key is `A.TTF` with its case preserved, and `a.ttf` is not a key. -/
theorem updateFontCache_keys_iff_witness :
    (updateFontCache fsDemo FontManager.fresh).result = Except.ok () ∧
    fsDemo.enumeratesCleanly ∧
    (("A.TTF" ∈ FontCache.keys (updateFontCache fsDemo FontManager.fresh).manager.fontCache ↔
      ∃ e ∈ fsDemo.entries, e.isRegularFile = true ∧ lowerExtension e.path ∈ fontExtensions ∧
        filename e.path = "A.TTF" ∧ fsDemo.underCandidate e.path) ∧
    (∀ v, FontCache.find "A.TTF" (updateFontCache fsDemo FontManager.fresh).manager.fontCache
        = some v →
      ∃ e ∈ fsDemo.entries, e.isRegularFile = true ∧ lowerExtension e.path ∈ fontExtensions ∧
        filename e.path = "A.TTF" ∧ fsDemo.underCandidate e.path ∧ v = pathString e.path)) ∧
    FontCache.keys (updateFontCache fsDemo FontManager.fresh).manager.fontCache = ["A.TTF"] ∧
    "a.ttf" ∉ FontCache.keys (updateFontCache fsDemo FontManager.fresh).manager.fontCache :=
  ⟨rfl, fsDemo_enumeratesCleanly,
   updateFontCache_keys_iff fsDemo FontManager.fresh rfl fsDemo_enumeratesCleanly "A.TTF",
   by decide, by decide⟩

/-! ## The font loader -/

/-- C2. A call `loadFont(n, s)` on an initialized manager rescans exactly once
when `n` is not a key of the cache at entry and not at all when it is.  On a
miss the call makes the `updateFontCache` call: its trace starts with the trace
of that rescan and the manager afterwards is the one the rescan leaves.  On a
cache hit the manager, its cache included, is left unchanged.  Whatever the
outcome (a font, font-not-found, a failed open of the resolved path, or an
error leaving the rescan) the call never rescans more than once. -/
theorem loadFont_rescans (fs : FileSystem) (ttf : Ttf) (m : FontManager)
    (hr : Reachable m) (hi : m.initialized = true) (n : String) (s : Int) :
    (n ∉ FontCache.keys m.fontCache →
      (loadFont fs ttf m n s).rescans = 1 ∧
      (loadFont fs ttf m n s).manager = (updateFontCache fs m).manager ∧
      ∃ rest, (loadFont fs ttf m n s).trace = (updateFontCache fs m).trace ++ rest) ∧
    (n ∈ FontCache.keys m.fontCache →
      (loadFont fs ttf m n s).rescans = 0 ∧ (loadFont fs ttf m n s).manager = m ∧
      (loadFont fs ttf m n s).trace = [FsCall.openFont (findFontPath m n) s]) ∧
    (loadFont fs ttf m n s).rescans ≤ 1 := by
  have hm := findFontPath_eq_empty_iff (reachable_pathsNonEmpty hr) n
  have hclear := updateFontCache_count_clear fs m
  by_cases h1 : findFontPath m n = ""
  · have hk : n ∉ FontCache.keys m.fontCache := hm.mp h1
    have hmiss : (loadFont fs ttf m n s).rescans = 1 ∧
        (loadFont fs ttf m n s).manager = (updateFontCache fs m).manager ∧
        ∃ rest, (loadFont fs ttf m n s).trace = (updateFontCache fs m).trace ++ rest := by
      rcases result_cases (updateFontCache fs m).result with hres | ⟨what, hres⟩
      · by_cases h2 : findFontPath (updateFontCache fs m).manager n = ""
        · rw [loadFont_miss_notFound fs ttf m n s hi h1 hres h2]
          exact ⟨hclear, rfl, [], by simp⟩
        · rw [loadFont_miss_open fs ttf m n s hi h1 hres h2]
          refine ⟨?_, openResolved_manager _ _ _ _ _, _, openResolved_trace _ _ _ _ _⟩
          simp [LoadOutcome.rescans, openResolved_trace, List.count_append, hclear,
            List.count_cons]
      · rw [loadFont_miss_error fs ttf m n s hi h1 what hres]
        exact ⟨hclear, rfl, [], by simp⟩
    exact ⟨fun _ => hmiss, fun hin => absurd hin hk, by omega⟩
  · have hk : n ∈ FontCache.keys m.fontCache := by
      by_contra hc
      exact h1 (hm.mpr hc)
    have hhit : (loadFont fs ttf m n s).rescans = 0 ∧ (loadFont fs ttf m n s).manager = m ∧
        (loadFont fs ttf m n s).trace = [FsCall.openFont (findFontPath m n) s] := by
      rw [loadFont_hit fs ttf m n s hi h1]
      refine ⟨?_, openResolved_manager _ _ _ _ _, by simp [openResolved_trace]⟩
      simp [LoadOutcome.rescans, openResolved_trace, List.count_cons]
    exact ⟨fun hout => absurd hk hout, fun _ => hhit, by omega⟩

theorem managerDemo_reachable : Reachable managerDemo :=
  Reachable.init fsDemo ttfOk FontManager.fresh Reachable.fresh

theorem managerLocked_reachable : Reachable managerLocked :=
  Reachable.init fsLockedBefore ttfOk FontManager.fresh Reachable.fresh

/-- The statement of C2 for the manager initialized on `fsLockedBefore`, whose
cache is empty, and a call made after the filesystem has become `fsDemo`: the
call rescans once and the manager afterwards holds the cache rebuilt from
`fsDemo`; a second call, on the manager so obtained, does not rescan. -/
theorem loadFont_rescans_witness :
    managerLocked.initialized = true ∧
    "A.TTF" ∉ FontCache.keys managerLocked.fontCache ∧
    ((loadFont fsDemo ttfOk managerLocked "A.TTF" 36).rescans = 1 ∧
      (loadFont fsDemo ttfOk managerLocked "A.TTF" 36).manager
        = (updateFontCache fsDemo managerLocked).manager ∧
      ∃ rest, (loadFont fsDemo ttfOk managerLocked "A.TTF" 36).trace
        = (updateFontCache fsDemo managerLocked).trace ++ rest) ∧
    (loadFont fsDemo ttfOk managerLocked "A.TTF" 36).manager.fontCache
      = [("A.TTF", "/proj/game/assets/fonts/A.TTF")] ∧
    (loadFont fsDemo ttfOk managerDemo "A.TTF" 36).rescans = 0 :=
  ⟨by decide, by decide,
   (loadFont_rescans fsDemo ttfOk managerLocked managerLocked_reachable (by decide)
      "A.TTF" 36).1 (by decide),
   by decide,
   ((loadFont_rescans fsDemo ttfOk managerDemo managerDemo_reachable (by decide)
      "A.TTF" 36).2.1 (by decide)).1⟩

/-- C1, as amended.  Take an initialized manager and a filesystem state in
which the rescan, if the call makes one, runs to its end.  Then `loadFont(n, s)`
fails with `Could not find font: n` exactly when `n` is not a key of the cache
at entry and is still not a key after the rescan.  Hence a font file named `n`
that the rescan meets does not fail with font-not-found, and when `n` was not
cached the path handed to `TTF_OpenFont` is that of a font file named `n` met
by the rescan; the rescan meets every font file below an existing candidate
directory when these directories enumerate without error.  A name that is not
cached and is the name of no font file below a candidate directory fails with
font-not-found. -/
theorem loadFont_notFound_iff (fs : FileSystem) (ttf : Ttf) (m : FontManager)
    (hr : Reachable m) (hi : m.initialized = true) (n : String) (s : Int)
    (hdone : n ∉ FontCache.keys m.fontCache → (updateFontCache fs m).result = Except.ok ()) :
    ((loadFont fs ttf m n s).result = Except.error ("Could not find font: " ++ n) ↔
      n ∉ FontCache.keys m.fontCache ∧
      n ∉ FontCache.keys (updateFontCache fs m).manager.fontCache) ∧
    ((∃ e ∈ fs.scanned, e.isFont = true ∧ filename e.path = n) →
      (loadFont fs ttf m n s).result ≠ Except.error ("Could not find font: " ++ n)) ∧
    (n ∉ FontCache.keys m.fontCache →
      (∃ e ∈ fs.scanned, e.isFont = true ∧ filename e.path = n) →
      ∃ e' ∈ fs.scanned, e'.isFont = true ∧ filename e'.path = n ∧
        (loadFont fs ttf m n s).trace =
          (updateFontCache fs m).trace ++ [FsCall.openFont (pathString e'.path) s]) ∧
    (fs.enumeratesCleanly →
      (∃ e ∈ fs.entries, e.isFont = true ∧ filename e.path = n ∧ fs.underCandidate e.path) →
      (updateFontCache fs m).result = Except.ok () →
      (loadFont fs ttf m n s).result ≠ Except.error ("Could not find font: " ++ n)) ∧
    (n ∉ FontCache.keys m.fontCache →
      (∀ e ∈ fs.entries, e.isFont = true → fs.underCandidate e.path → filename e.path ≠ n) →
      (loadFont fs ttf m n s).result = Except.error ("Could not find font: " ++ n)) := by
  have hinv := reachable_pathsNonEmpty hr
  have hiff := notFound_iff_of_pathsNonEmpty fs ttf m hinv hi n s hdone
  refine ⟨hiff, ?_, ?_, ?_, ?_⟩
  · intro hex hres
    exact (hiff.mp hres).2 ((mem_keys_updateFontCache fs m n).mpr hex)
  · intro hk hex
    have h1 : findFontPath m n = "" := (findFontPath_eq_empty_iff hinv n).mpr hk
    have hkey := (mem_keys_updateFontCache fs m n).mpr hex
    have h2 : findFontPath (updateFontCache fs m).manager n ≠ "" := fun h =>
      (findFontPath_eq_empty_iff (updateFontCache_pathsNonEmpty fs m) n).mp h hkey
    rw [loadFont_miss_open fs ttf m n s hi h1 (hdone hk) h2, openResolved_trace]
    obtain ⟨e, he, hf, hn⟩ := hex
    obtain ⟨found, hfound⟩ := lastFontNamed_isSome_of_mem he hf hn
    obtain ⟨g1, g2, g3⟩ := lastFontNamed_some hfound
    refine ⟨found, g1, g2, g3, ?_⟩
    have hfind : FontCache.find n (updateFontCache fs m).manager.fontCache
        = some (pathString found.path) := by
      rw [find_updateFontCache, hfound]; rfl
    simp [findFontPath, hfind]
  · rintro hclean ⟨e, he, hf, hn, hu⟩ hok hres
    exact (hiff.mp hres).2 ((mem_keys_updateFontCache fs m n).mpr
      ⟨e, (mem_scanned_of_clean hok hclean e).mpr ⟨he, hu⟩, hf, hn⟩)
  · intro hk hnone
    refine hiff.mpr ⟨hk, ?_⟩
    rw [mem_keys_updateFontCache]
    rintro ⟨e, he, hf, hn⟩
    obtain ⟨b, hb, hy⟩ := mem_scanned he
    obtain ⟨h1, h2, h3⟩ := yieldedOf_mem hy
    exact hnone e h2 hf ⟨b, hb, h1, h3⟩ hn

/-- The statement of C1 for the manager initialized on `fsDemo`: the name
`Missing.ttf` fails with font-not-found. -/
theorem loadFont_notFound_iff_witness :
    managerDemo.initialized = true ∧
    (updateFontCache fsDemo managerDemo).result = Except.ok () ∧
    (loadFont fsDemo ttfOk managerDemo "Missing.ttf" 12).result
      = Except.error ("Could not find font: " ++ "Missing.ttf") :=
  ⟨by decide, rfl,
   (loadFont_notFound_iff fsDemo ttfOk managerDemo managerDemo_reachable (by decide)
      "Missing.ttf" 12 (fun _ => rfl)).1.mpr ⟨by decide, by decide⟩⟩

/-- C1 as stated fails: `New.ttf` is created in the candidate directory
`/proj/game/assets` after the cache was built, the name is not cached, the
rescan runs to its end, and yet the call fails with font-not-found, because
the enumeration of that directory is ended by the unreadable `private` before
it meets the new file. -/
theorem loadFont_misses_file_behind_unreadable_directory :
    managerLocked.initialized = true ∧
    ({ path := ["proj", "game", "assets", "New.ttf"], kind := Kind.file true } : FsEntry)
      ∉ fsLockedBefore.entries ∧
    ({ path := ["proj", "game", "assets", "New.ttf"], kind := Kind.file true } : FsEntry)
      ∈ fsLocked.entries ∧
    hasFontExtension ["proj", "game", "assets", "New.ttf"] = true ∧
    ["proj", "game", "assets"] ∈ fsLocked.candidates ∧
    fsLocked.present ["proj", "game", "assets"] = true ∧
    isUnder ["proj", "game", "assets"] ["proj", "game", "assets", "New.ttf"] = true ∧
    (updateFontCache fsLocked managerLocked).result = Except.ok () ∧
    (loadFont fsLocked ttfOk managerLocked "New.ttf" 36).result
      = Except.error "Could not find font: New.ttf" := by
  refine ⟨by decide, by decide, by decide, by decide, by decide, by decide, by decide, ?_, ?_⟩
  · rfl
  · rfl

/-! ## Path strings determine paths -/

theorem pathChars_cons (c : String) (rest : Path) :
    pathChars (c :: rest) = '/' :: (c.data ++ (if rest = [] then [] else pathChars rest)) := by
  cases rest with
  | nil => simp [pathChars]
  | cons d tl => simp [pathChars]

theorem pathChars_head (p : Path) : ∃ tl, pathChars p = '/' :: tl := by
  cases p with
  | nil => exact ⟨[], rfl⟩
  | cons c rest => exact ⟨_, pathChars_cons c rest⟩

theorem split_at_separator (a b r1 r2 : List Char) (ha : '/' ∉ a) (hb : '/' ∉ b)
    (h1 : r1 = [] ∨ ∃ tl, r1 = '/' :: tl) (h2 : r2 = [] ∨ ∃ tl, r2 = '/' :: tl)
    (h : a ++ r1 = b ++ r2) : a = b ∧ r1 = r2 := by
  induction a generalizing b with
  | nil =>
    cases b with
    | nil => exact ⟨rfl, by simpa using h⟩
    | cons y b' =>
      exfalso
      simp only [List.nil_append, List.cons_append] at h
      rcases h1 with h1 | ⟨tl, h1⟩
      · rw [h1] at h; cases h
      · rw [h1] at h
        injection h with hy _
        exact hb (by rw [← hy]; exact List.mem_cons_self _ _)
  | cons x a' ih =>
    cases b with
    | nil =>
      exfalso
      simp only [List.nil_append, List.cons_append] at h
      rcases h2 with h2 | ⟨tl, h2⟩
      · rw [h2] at h; cases h
      · rw [h2] at h
        injection h with hx _
        exact ha (by rw [hx]; exact List.mem_cons_self _ _)
    | cons y b' =>
      simp only [List.cons_append, List.cons.injEq] at h
      obtain ⟨hxy, hrest⟩ := h
      have ha' : '/' ∉ a' := fun hm => ha (List.mem_cons_of_mem _ hm)
      have hb' : '/' ∉ b' := fun hm => hb (List.mem_cons_of_mem _ hm)
      obtain ⟨e1, e2⟩ := ih b' ha' hb' hrest
      exact ⟨by rw [hxy, e1], e2⟩

theorem pathChars_tail_shape (rest : Path) :
    (if rest = [] then [] else pathChars rest) = [] ∨
      ∃ tl, (if rest = [] then [] else pathChars rest) = '/' :: tl := by
  by_cases h : rest = []
  · left; simp [h]
  · right
    obtain ⟨tl, htl⟩ := pathChars_head rest
    exact ⟨tl, by simp [h, htl]⟩

theorem pathChars_injective (p q : Path) (hp : validPath p) (hq : validPath q)
    (h : pathChars p = pathChars q) : p = q := by
  induction p generalizing q with
  | nil =>
    cases q with
    | nil => rfl
    | cons d rest =>
      exfalso
      rw [pathChars_cons] at h
      simp only [pathChars, List.cons.injEq, true_and] at h
      have hd := (hq d (List.mem_cons_self _ _)).1
      have : d.data = [] := by
        have := congrArg List.length h
        simp only [List.length_nil, List.length_append] at this
        exact List.length_eq_zero.mp (by omega)
      exact hd this
  | cons c rest ih =>
    cases q with
    | nil =>
      exfalso
      rw [pathChars_cons] at h
      simp only [pathChars, List.cons.injEq, true_and] at h
      have hc := (hp c (List.mem_cons_self _ _)).1
      have : c.data = [] := by
        have := congrArg List.length h
        simp only [List.length_nil, List.length_append] at this
        exact List.length_eq_zero.mp (by omega)
      exact hc this
    | cons d rest' =>
      rw [pathChars_cons, pathChars_cons] at h
      simp only [List.cons.injEq, true_and] at h
      have hc := hp c (List.mem_cons_self _ _)
      have hd := hq d (List.mem_cons_self _ _)
      obtain ⟨e1, e2⟩ := split_at_separator _ _ _ _ hc.2 hd.2
        (pathChars_tail_shape rest) (pathChars_tail_shape rest') h
      have hcd : c = d := String.ext e1
      have hp' : validPath rest := fun x hx => hp x (List.mem_cons_of_mem _ hx)
      have hq' : validPath rest' := fun x hx => hq x (List.mem_cons_of_mem _ hx)
      have hrest : rest = rest' := by
        by_cases h1 : rest = []
        · by_cases h2 : rest' = []
          · rw [h1, h2]
          · simp only [h1, h2, if_true, if_false] at e2
            exact absurd e2.symm (pathChars_ne_nil rest')
        · by_cases h2 : rest' = []
          · simp only [h1, h2, if_true, if_false] at e2
            exact absurd e2 (pathChars_ne_nil rest)
          · simp only [h1, h2, if_false] at e2
            exact ih rest' hp' hq' e2
      rw [hcd, hrest]

theorem pathString_injective (p q : Path) (hp : validPath p) (hq : validPath q)
    (h : pathString p = pathString q) : p = q := by
  apply pathChars_injective p q hp hq
  have := congrArg String.data h
  simpa [pathString] using this

/-! ## Rebuilds of the cache -/

/-- C3. The cache produced by `updateFontCache` depends on the filesystem only:
two managers with any prior caches end with the same cache, so a second run on
an unchanged filesystem reproduces the mapping of the first.  After the object
at `p` is removed and the cache is rebuilt, the path string of `p` is no longer
a value of the mapping, and the filename of `p` is a key only if another font
file with that filename still exists below a candidate directory. -/
theorem updateFontCache_depends_on_filesystem_only (fs : FileSystem) (m1 m2 : FontManager)
    (p : Path) (hp : validPath p) (hfs : ∀ e ∈ fs.entries, validPath e.path) :
    (updateFontCache fs m1).manager.fontCache = (updateFontCache fs m2).manager.fontCache ∧
    updateFontCache fs (updateFontCache fs m1).manager = updateFontCache fs m1 ∧
    (∀ n, FontCache.find n (updateFontCache (fs.remove p) m1).manager.fontCache
        ≠ some (pathString p)) ∧
    (filename p ∈ FontCache.keys (updateFontCache (fs.remove p) m1).manager.fontCache →
      ∃ e ∈ (fs.remove p).entries, e.path ≠ p ∧ e.isFont = true ∧
        filename e.path = filename p ∧ (fs.remove p).underCandidate e.path) := by
  have hremoved : ∀ e ∈ (fs.remove p).entries, e ∈ fs.entries ∧ e.path ≠ p := by
    intro e he
    simpa [FileSystem.remove, List.mem_filter] using he
  refine ⟨?_, ?_, ?_, ?_⟩
  · rw [updateFontCache_cache, updateFontCache_cache]
  · unfold updateFontCache
    cases fs.currentPath with
    | error what => rfl
    | ok cwd => rfl
  · intro n hfind
    rw [find_updateFontCache] at hfind
    cases hl : lastFontNamed n (fs.remove p).scanned with
    | none => simp [hl] at hfind
    | some e =>
      simp only [hl, Option.map_some', Option.some.injEq] at hfind
      obtain ⟨he, _, _⟩ := lastFontNamed_some hl
      obtain ⟨b, _, hy⟩ := mem_scanned he
      obtain ⟨_, hmem, _⟩ := yieldedOf_mem hy
      obtain ⟨h1, h2⟩ := hremoved e hmem
      exact h2 (pathString_injective e.path p (hfs e h1) hp hfind)
  · intro hk
    obtain ⟨e, he, hf, hn⟩ := (mem_keys_updateFontCache _ _ _).mp hk
    obtain ⟨b, hb, hy⟩ := mem_scanned he
    obtain ⟨hex, hmem, hu⟩ := yieldedOf_mem hy
    exact ⟨e, hmem, (hremoved e hmem).2, hf, hn, b, hb, hex, hu⟩

theorem fsDemo_validPaths : ∀ e ∈ fsDemo.entries, validPath e.path := by
  unfold validPath validName
  decide

/-- The statement of C3 at `fsDemo` for the removal of its font `A.TTF`:
afterwards the path of the font is not a value of the rebuilt cache. -/
theorem updateFontCache_depends_on_filesystem_only_witness :
    validPath ["proj", "game", "assets", "fonts", "A.TTF"] ∧
    (∀ e ∈ fsDemo.entries, validPath e.path) ∧
    (∀ n, FontCache.find n
        (updateFontCache (fsDemo.remove ["proj", "game", "assets", "fonts", "A.TTF"])
          managerDemo).manager.fontCache
        ≠ some (pathString ["proj", "game", "assets", "fonts", "A.TTF"])) ∧
    (updateFontCache fsDemo managerDemo).manager.fontCache
      = (updateFontCache fsDemo FontManager.fresh).manager.fontCache :=
  ⟨by unfold validPath validName; decide,
   fsDemo_validPaths,
   (updateFontCache_depends_on_filesystem_only fsDemo managerDemo FontManager.fresh
      ["proj", "game", "assets", "fonts", "A.TTF"]
      (by unfold validPath validName; decide) fsDemo_validPaths).2.2.1,
   (updateFontCache_depends_on_filesystem_only fsDemo managerDemo FontManager.fresh
      ["proj", "game", "assets", "fonts", "A.TTF"]
      (by unfold validPath validName; decide) fsDemo_validPaths).1⟩

theorem reachedBases_append (fs : FileSystem) (l1 l2 : List Path)
    (h : ∀ x ∈ l1, x ∉ fs.statusFails) :
    fs.reachedBases (l1 ++ l2) = l1 ++ fs.reachedBases l2 := by
  induction l1 with
  | nil => rfl
  | cons x rest ih =>
    have hx : x ∉ fs.statusFails := h x (List.mem_cons_self _ _)
    have hrest : ∀ y ∈ rest, y ∉ fs.statusFails := fun y hy => h y (List.mem_cons_of_mem _ hy)
    rw [List.cons_append, FileSystem.reachedBases]
    simp [FileSystem.pathExists, hx, ih hrest]

theorem last_font_among_later (fs : FileSystem) (m : FontManager) (n : String)
    (before after : List Path) (b : Path)
    (horder : fs.candidates = before ++ b :: after)
    (hreach : ∀ x ∈ before ++ [b], x ∉ fs.statusFails)
    (e : FsEntry) (hy : e ∈ fs.yieldedOf b) (hf : e.isFont = true)
    (hn : filename e.path = n) :
    ∃ b' ∈ b :: after, ∃ e' ∈ fs.entries,
      fs.present b' = true ∧ isUnder b' e'.path = true ∧ e'.isFont = true ∧
      filename e'.path = n ∧
      FontCache.find n (updateFontCache fs m).manager.fontCache
        = some (pathString e'.path) := by
  have hsplit : fs.reachedBases fs.candidates = before ++ (b :: fs.reachedBases after) := by
    have h1 : before ++ b :: after = (before ++ [b]) ++ after := by simp
    rw [horder, h1, reachedBases_append fs _ _ hreach]
    simp
  have hlate : e ∈ (b :: fs.reachedBases after).flatMap fs.yieldedOf := by
    rw [List.mem_flatMap]
    exact ⟨b, List.mem_cons_self _ _, hy⟩
  obtain ⟨found, hfound⟩ := lastFontNamed_isSome_of_mem hlate hf hn
  obtain ⟨h1, h2, h3⟩ := lastFontNamed_some hfound
  obtain ⟨b', hb', hy'⟩ := List.mem_flatMap.mp h1
  obtain ⟨hex', hmem', hu'⟩ := yieldedOf_mem hy'
  have hb'' : b' ∈ b :: after := by
    rcases List.mem_cons.mp hb' with hb' | hb'
    · exact hb' ▸ List.mem_cons_self _ _
    · exact List.mem_cons_of_mem _ (reachedBases_subset fs after b' hb')
  refine ⟨b', hb'', found, hmem', hex', hu', h2, h3, ?_⟩
  rw [find_updateFontCache, FileSystem.scanned, hsplit, List.flatMap_append,
    lastFontNamed_append, hfound]
  rfl

/-- C5, as amended.  Let `b` be a candidate base directory, `before` the base
directories scanned before it and `after` those scanned after it, let the scan
get to `b` (the status queries on the base paths up to `b` succeed, as they all
do when `updateFontCache` returns), and let a font file named `n` lie below
`b`.  If the enumeration of `b` reaches that file, as it does whenever `b`
exists and enumerates without error, then the rebuilt cache maps `n` to the
path of a font file named `n` that lies below `b` itself or below a base
directory scanned after `b`: a file found only below a directory scanned before
`b` is not the cached one. -/
theorem later_directory_wins (fs : FileSystem) (m : FontManager) (n : String)
    (before after : List Path) (b : Path)
    (horder : fs.candidates = before ++ b :: after)
    (hreach : ∀ x ∈ before ++ [b], x ∉ fs.statusFails) :
    (∀ e ∈ fs.yieldedOf b, e.isFont = true → filename e.path = n →
      ∃ b' ∈ b :: after, ∃ e' ∈ fs.entries,
        fs.present b' = true ∧ isUnder b' e'.path = true ∧ e'.isFont = true ∧
        filename e'.path = n ∧
        FontCache.find n (updateFontCache fs m).manager.fontCache
          = some (pathString e'.path)) ∧
    (fs.present b = true → (fs.recursiveDirectoryIterator b).failed = false →
      ∀ e ∈ fs.entries, isUnder b e.path = true → e.isFont = true → filename e.path = n →
      ∃ b' ∈ b :: after, ∃ e' ∈ fs.entries,
        fs.present b' = true ∧ isUnder b' e'.path = true ∧ e'.isFont = true ∧
        filename e'.path = n ∧
        FontCache.find n (updateFontCache fs m).manager.fontCache
          = some (pathString e'.path)) := by
  constructor
  · intro e hy hf hn
    exact last_font_among_later fs m n before after b horder hreach e hy hf hn
  · intro hex hok e he hu hf hn
    refine last_font_among_later fs m n before after b horder hreach e ?_ hf hn
    rw [yieldedOf_clean hex hok, List.mem_filter]
    exact ⟨he, hu⟩

/-- The statement of C5 at `fsTwo` for its third candidate directory
`/proj/assets`: the cached path of `Font.ttf` is that of a font file below the
third or the fourth candidate directory. -/
theorem later_directory_wins_witness :
    fsTwo.candidates =
      [["proj", "game", "assets"], ["proj", "game", "src", "assets"]] ++
        ["proj", "assets"] :: [["proj", "src", "assets"]] ∧
    (∀ x ∈ [["proj", "game", "assets"], ["proj", "game", "src", "assets"]] ++
        [["proj", "assets"]], x ∉ fsTwo.statusFails) ∧
    ∃ b' ∈ (["proj", "assets"] :: [["proj", "src", "assets"]] : List Path),
      ∃ e' ∈ fsTwo.entries,
      fsTwo.present b' = true ∧ isUnder b' e'.path = true ∧ e'.isFont = true ∧
      filename e'.path = "Font.ttf" ∧
      FontCache.find "Font.ttf" (updateFontCache fsTwo FontManager.fresh).manager.fontCache
        = some (pathString e'.path) :=
  ⟨by decide, by decide,
   (later_directory_wins fsTwo FontManager.fresh "Font.ttf"
      [["proj", "game", "assets"], ["proj", "game", "src", "assets"]]
      [["proj", "src", "assets"]]
      ["proj", "assets"]
      (by decide) (by decide)).2 (by decide) (by decide)
      { path := ["proj", "assets", "Font.ttf"], kind := Kind.file true }
      (by decide) (by decide) (by decide) (by decide)⟩

/-- C5 as stated fails: in `fsShadow` the first candidate directory
`/proj/game/assets` and the third one `/proj/assets` both contain a font file
named `Font.ttf`, and the cached path is the one below the first, because the
enumeration of `/proj/assets` is ended by an error before it meets its font. -/
theorem earlier_directory_wins_after_failed_enumeration :
    fsShadow.candidates =
      [["proj", "game", "assets"], ["proj", "game", "src", "assets"],
       ["proj", "assets"], ["proj", "src", "assets"]] ∧
    ({ path := ["proj", "game", "assets", "Font.ttf"], kind := Kind.file true } : FsEntry)
      ∈ fsShadow.entries ∧
    ({ path := ["proj", "assets", "Font.ttf"], kind := Kind.file true } : FsEntry)
      ∈ fsShadow.entries ∧
    fsShadow.present ["proj", "game", "assets"] = true ∧
    fsShadow.present ["proj", "assets"] = true ∧
    hasFontExtension ["proj", "assets", "Font.ttf"] = true ∧
    (fsShadow.recursiveDirectoryIterator ["proj", "assets"]).failed = true ∧
    (updateFontCache fsShadow FontManager.fresh).result = Except.ok () ∧
    (updateFontCache fsShadow FontManager.fresh).warnings = [["proj", "assets"]] ∧
    FontCache.find "Font.ttf" (updateFontCache fsShadow FontManager.fresh).manager.fontCache
      = some (pathString ["proj", "game", "assets", "Font.ttf"]) := by
  refine ⟨by decide, by decide, by decide, by decide, by decide, by decide, by decide, rfl,
    by decide, by decide⟩

/-! ## Directories that cannot be enumerated -/

/-- An error raised by the enumeration of a base directory is caught: when
`current_path()` and the status queries on the candidate base paths succeed,
`updateFontCache` returns, the font files that a directory yielded before an
error stay in the cache, and every font file below a base directory that
exists and enumerates without error is a key of the cache. -/
theorem enumeration_errors_are_caught (fs : FileSystem) (m : FontManager)
    (hcwd : fs.cwd ≠ none) (hstatus : ∀ b ∈ fs.candidates, b ∉ fs.statusFails) :
    (updateFontCache fs m).result = Except.ok () ∧
    (∀ b ∈ fs.candidates, ∀ e ∈ fs.yieldedOf b, e.isFont = true →
      filename e.path ∈ FontCache.keys (updateFontCache fs m).manager.fontCache) ∧
    (∀ b ∈ fs.candidates, fs.present b = true →
      (fs.recursiveDirectoryIterator b).failed = false →
      ∀ e ∈ fs.entries, isUnder b e.path = true → e.isFont = true →
        filename e.path ∈ FontCache.keys (updateFontCache fs m).manager.fontCache) := by
  have hdone := updateFontCache_done_of_status m hcwd hstatus
  refine ⟨hdone, ?_, ?_⟩
  · intro b hb e he hf
    rw [mem_keys_updateFontCache]
    exact ⟨e, (mem_scanned_of_done hdone).mpr ⟨b, hb, he⟩, hf, rfl⟩
  · intro b hb hex hok e he hu hf
    rw [mem_keys_updateFontCache]
    refine ⟨e, (mem_scanned_of_done hdone).mpr ⟨b, hb, ?_⟩, hf, rfl⟩
    rw [yieldedOf_clean hex hok, List.mem_filter]
    exact ⟨he, hu⟩

/-- C6 does not hold of the code.  In `fsStatusDenied` the status of the second
candidate path `/proj/game/src/assets` cannot be determined.  The test
`std::filesystem::exists(basePath)` stands before the `try` block, so its
`filesystem_error` leaves `updateFontCache`: the call does not return, no
warning is logged, the loop never gets to the third candidate directory
`/proj/assets`, which exists and enumerates without error, and the font
`Other.ttf` below it is not a key of the cache.  The error leaves `loadFont`
as well. -/
theorem updateFontCache_aborts_on_status_error :
    fsStatusDenied.candidates =
      [["proj", "game", "assets"], ["proj", "game", "src", "assets"],
       ["proj", "assets"], ["proj", "src", "assets"]] ∧
    fsStatusDenied.pathExists ["proj", "game", "src", "assets"]
      = Except.error "filesystem error: cannot get file status" ∧
    fsStatusDenied.present ["proj", "assets"] = true ∧
    (fsStatusDenied.recursiveDirectoryIterator ["proj", "assets"]).failed = false ∧
    ({ path := ["proj", "assets", "Other.ttf"], kind := Kind.file true } : FsEntry)
      ∈ fsStatusDenied.entries ∧
    hasFontExtension ["proj", "assets", "Other.ttf"] = true ∧
    (updateFontCache fsStatusDenied FontManager.fresh).result
      = Except.error "filesystem error: cannot get file status" ∧
    (updateFontCache fsStatusDenied FontManager.fresh).trace
      = [FsCall.clear, FsCall.status ["proj", "game", "assets"],
         FsCall.iterate ["proj", "game", "assets"],
         FsCall.status ["proj", "game", "src", "assets"]] ∧
    (updateFontCache fsStatusDenied FontManager.fresh).warnings = [] ∧
    "Other.ttf" ∉ FontCache.keys
      (updateFontCache fsStatusDenied FontManager.fresh).manager.fontCache ∧
    (loadFont fsStatusDenied ttfOk managerDemo "Other.ttf" 36).result
      = Except.error "filesystem error: cannot get file status" := by
  refine ⟨by decide, rfl, by decide, by decide, by decide, by decide, rfl, by decide,
    by decide, by decide, rfl⟩

/-! ## Owning handles -/

theorem HandleKind.deleter_eq (k : HandleKind) (p : Nat) (trace : List NativeCall)
    (hp : p ≠ 0) : k.deleter p trace = trace ++ [k.releaseCall p] := by
  cases k <;>
    simp [HandleKind.deleter, HandleKind.releaseCall, SDLDeleters.WindowDeleter,
      SDLDeleters.RendererDeleter, SDLDeleters.SurfaceDeleter, SDLDeleters.TextureDeleter,
      SDLDeleters.FontDeleter, Window.SDLWindowDeleter, Window.SDLRendererDeleter, hp]

theorem HandleKind.releaseCall_inj (k : HandleKind) (p q : Nat) :
    k.releaseCall p = k.releaseCall q ↔ p = q := by
  cases k <;> simp [HandleKind.releaseCall]

/-- The trace after the destructor of a handle that holds `p`. -/
theorem UniquePtr.destroy_trace (k : HandleKind) (u : UniquePtr) (trace : List NativeCall) :
    u.destroy k.deleter trace = if u.ptr = 0 then trace else trace ++ [k.releaseCall u.ptr] := by
  unfold UniquePtr.destroy
  by_cases h : u.ptr = 0
  · simp [h]
  · simp [h, HandleKind.deleter_eq k u.ptr trace h]

theorem UniquePtr.reset_trace (k : HandleKind) (u : UniquePtr) (p : Nat)
    (trace : List NativeCall) :
    (u.reset k.deleter p trace).2 =
      if u.ptr = 0 then trace else trace ++ [k.releaseCall u.ptr] := by
  unfold UniquePtr.reset
  by_cases h : u.ptr = 0
  · simp [h]
  · simp [h, HandleKind.deleter_eq k u.ptr trace h]

theorem count_release_snoc (k : HandleKind) (trace : List NativeCall) (p r : Nat) :
    (trace ++ [k.releaseCall p]).count (k.releaseCall r) =
      trace.count (k.releaseCall r) + if p = r then 1 else 0 := by
  rw [List.count_append, List.count_singleton]
  by_cases h : p = r
  · subst h; simp
  · have : ¬ k.releaseCall p = k.releaseCall r := fun e => h ((k.releaseCall_inj p r).mp e)
    simp [h, this]

theorem holders_cons (vars : List (Nat × UniquePtr)) (h : Nat) (u : UniquePtr) (r : Nat) :
    HandleState.holders ((h, u) :: vars) r =
      HandleState.holders vars r + if u.ptr = r then 1 else 0 := by
  simp [HandleState.holders, List.count_cons]

theorem holders_set (vars : List (Nat × UniquePtr)) (h : Nat) (u v : UniquePtr) (r : Nat)
    (hget : HandleState.get vars h = some u) :
    HandleState.holders (HandleState.set vars h v) r + (if u.ptr = r then 1 else 0) =
      HandleState.holders vars r + if v.ptr = r then 1 else 0 := by
  induction vars with
  | nil => simp [HandleState.get] at hget
  | cons xv rest ih =>
    obtain ⟨x, w⟩ := xv
    by_cases hx : x = h
    · simp only [HandleState.get, hx, if_true, Option.some.injEq] at hget
      subst hget
      simp only [HandleState.set, hx, if_true, holders_cons]
      omega
    · simp only [HandleState.get, hx, if_false] at hget
      have := ih hget
      simp only [HandleState.set, hx, if_false, holders_cons]
      omega

theorem holders_erase (vars : List (Nat × UniquePtr)) (h : Nat) (u : UniquePtr) (r : Nat)
    (hget : HandleState.get vars h = some u) :
    HandleState.holders (HandleState.erase vars h) r + (if u.ptr = r then 1 else 0) =
      HandleState.holders vars r := by
  induction vars with
  | nil => simp [HandleState.get] at hget
  | cons xv rest ih =>
    obtain ⟨x, w⟩ := xv
    by_cases hx : x = h
    · simp only [HandleState.get, hx, if_true, Option.some.injEq] at hget
      subst hget
      simp only [HandleState.erase, hx, if_true, holders_cons]
    · simp only [HandleState.get, hx, if_false] at hget
      have := ih hget
      simp only [HandleState.erase, hx, if_false, holders_cons]
      omega


theorem mem_trace_snoc (k : HandleKind) (trace : List NativeCall) (p : Nat)
    (htrace : ∀ c ∈ trace, ∃ r, r ≠ 0 ∧ c = k.releaseCall r) :
    ∀ c ∈ (if p = 0 then trace else trace ++ [k.releaseCall p]),
      ∃ r, r ≠ 0 ∧ c = k.releaseCall r := by
  intro c hc
  by_cases hp : p = 0
  · simp only [hp, if_true] at hc
    exact htrace c hc
  · simp only [hp, if_false, List.mem_append, List.mem_singleton] at hc
    rcases hc with hc | hc
    · exact htrace c hc
    · exact ⟨p, hp, hc⟩

theorem count_trace_snoc (k : HandleKind) (trace : List NativeCall) (p r : Nat)
    (hr : r ≠ 0) :
    (if p = 0 then trace else trace ++ [k.releaseCall p]).count (k.releaseCall r) =
      trace.count (k.releaseCall r) + if p = r then 1 else 0 := by
  by_cases hp : p = 0
  · have : ¬ p = r := fun e => hr (by rw [← e, hp])
    simp [hp, this]
    intro e
    exact absurd e.symm hr
  · simp only [hp, if_false, count_release_snoc]

theorem count_taken_snoc (taken : List Nat) (p r : Nat) :
    (taken ++ [p]).count r = taken.count r + if p = r then 1 else 0 := by
  rw [List.count_append, List.count_singleton]
  by_cases h : p = r <;> simp [h]

theorem get_none_of_not_mem (vars : List (Nat × UniquePtr)) (h : Nat)
    (hn : h ∉ HandleState.names vars) : HandleState.get vars h = none := by
  induction vars with
  | nil => rfl
  | cons xw rest ih =>
    obtain ⟨x, w⟩ := xw
    simp only [HandleState.names, List.map_cons, List.mem_cons, not_or] at hn
    have hx : ¬ x = h := fun e => hn.1 e.symm
    simp only [HandleState.get, hx, if_false]
    exact ih hn.2

theorem get_some_of_mem (vars : List (Nat × UniquePtr)) (h : Nat)
    (hm : h ∈ HandleState.names vars) : ∃ u, HandleState.get vars h = some u := by
  induction vars with
  | nil => simp [HandleState.names] at hm
  | cons xw rest ih =>
    obtain ⟨x, w⟩ := xw
    by_cases hx : x = h
    · exact ⟨w, by simp [HandleState.get, hx]⟩
    · simp only [HandleState.names, List.map_cons, List.mem_cons] at hm
      rcases hm with hm | hm
      · exact absurd hm.symm hx
      · obtain ⟨u, hu⟩ := ih hm
        exact ⟨u, by simp [HandleState.get, hx, hu]⟩

theorem names_set (vars : List (Nat × UniquePtr)) (h : Nat) (u : UniquePtr) :
    HandleState.names (HandleState.set vars h u) = HandleState.names vars := by
  induction vars with
  | nil => rfl
  | cons xw rest ih =>
    obtain ⟨x, w⟩ := xw
    by_cases hx : x = h
    · simp [HandleState.set, HandleState.names, hx]
    · simp only [HandleState.names] at ih
      simp [HandleState.set, HandleState.names, hx, ih]

theorem names_erase (vars : List (Nat × UniquePtr)) (h : Nat) :
    HandleState.names (HandleState.erase vars h) = (HandleState.names vars).erase h := by
  induction vars with
  | nil => rfl
  | cons xw rest ih =>
    obtain ⟨x, w⟩ := xw
    by_cases hx : x = h
    · simp [HandleState.erase, HandleState.names, hx]
    · simp only [HandleState.names] at ih
      simp [HandleState.erase, HandleState.names, hx, ih, List.erase_cons]

/-- One allowed operation keeps the release balance, with the pointer it hands
over added to the record, and changes the live names as the scoping rule
says. -/
theorem HandleState.step_balanced (k : HandleKind) (s : HandleState) (op : HandleOp)
    (taken : List Nat) (scope : List Nat) (hs : s.balanced k taken)
    (hscope : op.scope (HandleState.names s.live) = some scope) :
    (s.step k op).balanced k (taken ++ op.takes) ∧
      HandleState.names (s.step k op).live = scope := by
  obtain ⟨hcount, htrace⟩ := hs
  cases op with
  | own h p =>
    by_cases hm : h ∈ HandleState.names s.live
    · simp [HandleOp.scope, hm] at hscope
    · simp only [HandleOp.scope, hm, if_false, Option.some.injEq] at hscope
      have hg := get_none_of_not_mem s.live h hm
      have hstep : s.step k (HandleOp.own h p) =
          { s with live := (h, { ptr := p }) :: s.live } := by
        simp [HandleState.step, hg]
      rw [hstep]
      refine ⟨⟨?_, htrace⟩, by simpa [HandleState.names] using hscope⟩
      intro r hr
      have := hcount r hr
      simp only [HandleOp.takes, count_taken_snoc, holders_cons]
      omega
  | moveConstruct dst src =>
    by_cases hm : src ∈ HandleState.names s.live ∧ dst ∉ HandleState.names s.live
    · simp only [HandleOp.scope, hm, and_self, not_false_eq_true, if_true,
        Option.some.injEq] at hscope
      obtain ⟨u, hsrc⟩ := get_some_of_mem s.live src hm.1
      have hdst := get_none_of_not_mem s.live dst hm.2
      have hstep : s.step k (HandleOp.moveConstruct dst src) =
          { s with live := (dst, { ptr := u.ptr }) ::
              HandleState.set s.live src { ptr := 0 } } := by
        simp [HandleState.step, hsrc, hdst]
      rw [hstep]
      refine ⟨⟨?_, htrace⟩, ?_⟩
      · intro r hr
        have h1 := hcount r hr
        have h2 := holders_set s.live src u { ptr := 0 } r hsrc
        have h0 : ¬ (0 : Nat) = r := fun e => hr e.symm
        simp only [h0, if_false] at h2
        simp only [HandleOp.takes, List.append_nil, holders_cons]
        omega
      · have := names_set s.live src { ptr := 0 }
        simp only [HandleState.names] at this hscope ⊢
        simp [this, hscope]
    · simp [HandleOp.scope, hm] at hscope
  | moveAssign dst src =>
    by_cases hm : src ∈ HandleState.names s.live ∧ dst ∈ HandleState.names s.live
    · simp only [HandleOp.scope, hm, and_self, if_true, Option.some.injEq] at hscope
      obtain ⟨u, hsrc⟩ := get_some_of_mem s.live src hm.1
      have hdm : dst ∈ HandleState.names (HandleState.set s.live src { ptr := 0 }) := by
        rw [names_set]; exact hm.2
      obtain ⟨v, hdst⟩ := get_some_of_mem _ dst hdm
      have hstep : s.step k (HandleOp.moveAssign dst src) =
          { live := HandleState.set (HandleState.set s.live src { ptr := 0 }) dst
                { ptr := u.ptr },
            trace := if v.ptr = 0 then s.trace else s.trace ++ [k.releaseCall v.ptr] } := by
        simp [HandleState.step, hsrc, hdst, UniquePtr.reset_trace]
        simp [UniquePtr.reset]
      rw [hstep]
      refine ⟨⟨?_, mem_trace_snoc k s.trace v.ptr htrace⟩, ?_⟩
      · intro r hr
        have h1 := hcount r hr
        have h2 := holders_set s.live src u { ptr := 0 } r hsrc
        have h3 := holders_set (HandleState.set s.live src { ptr := 0 }) dst v
          { ptr := u.ptr } r hdst
        have h0 : ¬ (0 : Nat) = r := fun e => hr e.symm
        simp only [h0, if_false] at h2
        simp only at h3
        simp only [HandleOp.takes, List.append_nil, count_trace_snoc k s.trace v.ptr r hr]
        omega
      · simp only [names_set]
        exact hscope
    · simp [HandleOp.scope, hm] at hscope
  | reset h p =>
    by_cases hm : h ∈ HandleState.names s.live
    · simp only [HandleOp.scope, hm, if_true, Option.some.injEq] at hscope
      obtain ⟨u, hg⟩ := get_some_of_mem s.live h hm
      have hstep : s.step k (HandleOp.reset h p) =
          { live := HandleState.set s.live h { ptr := p },
            trace := if u.ptr = 0 then s.trace else s.trace ++ [k.releaseCall u.ptr] } := by
        simp [HandleState.step, hg, UniquePtr.reset_trace]
        simp [UniquePtr.reset]
      rw [hstep]
      refine ⟨⟨?_, mem_trace_snoc k s.trace u.ptr htrace⟩, ?_⟩
      · intro r hr
        have h1 := hcount r hr
        have h2 := holders_set s.live h u { ptr := p } r hg
        simp only at h2
        simp only [HandleOp.takes, count_trace_snoc k s.trace u.ptr r hr, count_taken_snoc]
        omega
      · simp only [names_set]
        exact hscope
    · simp [HandleOp.scope, hm] at hscope
  | destroy h =>
    by_cases hm : h ∈ HandleState.names s.live
    · simp only [HandleOp.scope, hm, if_true, Option.some.injEq] at hscope
      obtain ⟨u, hg⟩ := get_some_of_mem s.live h hm
      have hstep : s.step k (HandleOp.destroy h) =
          { live := HandleState.erase s.live h,
            trace := if u.ptr = 0 then s.trace else s.trace ++ [k.releaseCall u.ptr] } := by
        simp [HandleState.step, hg, UniquePtr.destroy_trace]
      rw [hstep]
      refine ⟨⟨?_, mem_trace_snoc k s.trace u.ptr htrace⟩, ?_⟩
      · intro r hr
        have h1 := hcount r hr
        have h2 := holders_erase s.live h u r hg
        simp only [HandleOp.takes, List.append_nil, count_trace_snoc k s.trace u.ptr r hr]
        omega
      · simp only [names_erase]
        exact hscope
    · simp [HandleOp.scope, hm] at hscope

theorem HandleState.run_balanced (k : HandleKind) (s : HandleState) (ops : List HandleOp)
    (taken : List Nat) (hs : s.balanced k taken)
    (hscope : wellScoped (HandleState.names s.live) ops = true) :
    (HandleState.run k s ops).balanced k (taken ++ takenBy ops) := by
  induction ops generalizing s taken with
  | nil => simpa [HandleState.run, takenBy] using hs
  | cons op rest ih =>
    rw [wellScoped] at hscope
    cases hsc : op.scope (HandleState.names s.live) with
    | none => simp [hsc] at hscope
    | some scope =>
      simp only [hsc] at hscope
      obtain ⟨hb, hn⟩ := HandleState.step_balanced k s op taken scope hs hsc
      have := ih (s.step k op) (taken ++ op.takes) hb (by rw [hn]; exact hscope)
      simpa [HandleState.run, takenBy, List.flatMap_cons, List.append_assoc] using this

theorem HandleState.empty_balanced (k : HandleKind) : HandleState.empty.balanced k [] := by
  refine ⟨?_, ?_⟩
  · intro r _
    simp [HandleState.empty, HandleState.holders]
  · intro c hc
    simp [HandleState.empty] at hc

theorem get_set_self (vars : List (Nat × UniquePtr)) (h : Nat) (u v : UniquePtr)
    (hget : HandleState.get vars h = some u) :
    HandleState.get (HandleState.set vars h v) h = some v := by
  induction vars with
  | nil => simp [HandleState.get] at hget
  | cons xw rest ih =>
    obtain ⟨x, w⟩ := xw
    by_cases hx : x = h
    · simp [HandleState.set, HandleState.get, hx]
    · simp only [HandleState.get, hx, if_false] at hget
      simp [HandleState.set, HandleState.get, hx, ih hget]

theorem get_set_other (vars : List (Nat × UniquePtr)) (h h' : Nat) (v : UniquePtr)
    (hne : h' ≠ h) :
    HandleState.get (HandleState.set vars h v) h' = HandleState.get vars h' := by
  have hne' : ¬ h = h' := fun e => hne e.symm
  induction vars with
  | nil => simp [HandleState.set, HandleState.get]
  | cons xw rest ih =>
    obtain ⟨x, w⟩ := xw
    by_cases hx : x = h
    · subst hx
      simp [HandleState.set, HandleState.get, hne']
    · by_cases hx' : x = h'
      · subst hx'
        simp [HandleState.set, HandleState.get, hne]
      · simp [HandleState.set, HandleState.get, hx, hx', ih]

theorem get_erase_other (vars : List (Nat × UniquePtr)) (h h' : Nat) (hne : h' ≠ h) :
    HandleState.get (HandleState.erase vars h) h' = HandleState.get vars h' := by
  have hne' : ¬ h = h' := fun e => hne e.symm
  induction vars with
  | nil => simp [HandleState.erase, HandleState.get]
  | cons xw rest ih =>
    obtain ⟨x, w⟩ := xw
    by_cases hx : x = h
    · subst hx
      simp [HandleState.erase, HandleState.get, hne']
    · by_cases hx' : x = h'
      · subst hx'
        simp [HandleState.erase, HandleState.get, hne]
      · simp [HandleState.erase, HandleState.get, hx, hx', ih]

theorem step_destroy_of_get (k : HandleKind) (s : HandleState) (h : Nat) (u : UniquePtr)
    (hg : HandleState.get s.live h = some u) :
    s.step k (HandleOp.destroy h) =
      { live := HandleState.erase s.live h,
        trace := if u.ptr = 0 then s.trace else s.trace ++ [k.releaseCall u.ptr] } := by
  simp [HandleState.step, hg, UniquePtr.destroy_trace]

/-- After `Ptr dst(std::move(src));` the destruction of `src` releases nothing
and the destruction of `dst` releases the moved resource, once. -/
theorem moveConstruct_then_destroy (k : HandleKind) (s : HandleState) (src dst : Nat)
    (u : UniquePtr) (hsrc : HandleState.get s.live src = some u) (hp : u.ptr ≠ 0)
    (hdst : HandleState.get s.live dst = none) :
    ((s.step k (HandleOp.moveConstruct dst src)).step k (HandleOp.destroy src)).trace
      = s.trace ∧
    (((s.step k (HandleOp.moveConstruct dst src)).step k (HandleOp.destroy src)).step k
      (HandleOp.destroy dst)).trace = s.trace ++ [k.releaseCall u.ptr] := by
  have hne : src ≠ dst := by
    intro e
    rw [e, hdst] at hsrc
    cases hsrc
  have hne' : ¬ dst = src := fun e => hne e.symm
  have hmove : s.step k (HandleOp.moveConstruct dst src) =
      { s with live := (dst, { ptr := u.ptr }) :: HandleState.set s.live src { ptr := 0 } } := by
    simp [HandleState.step, hsrc, hdst]
  have hg1 : HandleState.get
      ((dst, ({ ptr := u.ptr } : UniquePtr)) :: HandleState.set s.live src { ptr := 0 }) src
      = some { ptr := 0 } := by
    simp [HandleState.get, hne', get_set_self s.live src u { ptr := 0 } hsrc]
  rw [hmove, step_destroy_of_get k _ src { ptr := 0 } hg1]
  have hg2 : HandleState.get (HandleState.erase
      ((dst, ({ ptr := u.ptr } : UniquePtr)) :: HandleState.set s.live src { ptr := 0 }) src) dst
      = some { ptr := u.ptr } := by
    rw [get_erase_other _ src dst hne']
    simp [HandleState.get]
  refine ⟨by simp, ?_⟩
  rw [step_destroy_of_get k _ dst { ptr := u.ptr } (by simpa using hg2)]
  simp [hp]

/-- After `dst = std::move(src);` on two different handles the destruction of
`src` releases nothing and the destruction of `dst` releases the moved
resource, once. -/
theorem moveAssign_then_destroy (k : HandleKind) (s : HandleState) (src dst : Nat)
    (u v : UniquePtr) (hsrc : HandleState.get s.live src = some u) (hp : u.ptr ≠ 0)
    (hdst : HandleState.get s.live dst = some v) (hne : dst ≠ src) :
    ((s.step k (HandleOp.moveAssign dst src)).step k (HandleOp.destroy src)).trace
      = (s.step k (HandleOp.moveAssign dst src)).trace ∧
    (((s.step k (HandleOp.moveAssign dst src)).step k (HandleOp.destroy src)).step k
      (HandleOp.destroy dst)).trace
      = (s.step k (HandleOp.moveAssign dst src)).trace ++ [k.releaseCall u.ptr] := by
  have hne' : src ≠ dst := fun e => hne e.symm
  have hdst' : HandleState.get (HandleState.set s.live src { ptr := 0 }) dst = some v := by
    rw [get_set_other _ src dst _ hne, hdst]
  have hmove : s.step k (HandleOp.moveAssign dst src) =
      { live := HandleState.set (HandleState.set s.live src { ptr := 0 }) dst { ptr := u.ptr },
        trace := if v.ptr = 0 then s.trace else s.trace ++ [k.releaseCall v.ptr] } := by
    simp [HandleState.step, hsrc, hdst', UniquePtr.reset_trace]
    simp [UniquePtr.reset]
  have hg1 : HandleState.get
      (HandleState.set (HandleState.set s.live src { ptr := 0 }) dst { ptr := u.ptr }) src
      = some { ptr := 0 } := by
    rw [get_set_other _ dst src _ hne', get_set_self s.live src u { ptr := 0 } hsrc]
  rw [hmove, step_destroy_of_get k _ src { ptr := 0 } hg1]
  have hg2 : HandleState.get (HandleState.erase
      (HandleState.set (HandleState.set s.live src { ptr := 0 }) dst { ptr := u.ptr }) src) dst
      = some { ptr := u.ptr } := by
    rw [get_erase_other _ src dst hne, get_set_self _ dst v { ptr := u.ptr } hdst']
  refine ⟨by simp, ?_⟩
  rw [step_destroy_of_get k _ dst { ptr := u.ptr } (by simpa using hg2)]
  simp [hp]

/-- C7. For each of the five owning handle types (and for the two member types
of `Window`) and every program that takes ownership of raw pointers, moves,
resets and destroys handles within the scoping rule of C++: at every point
each non-null pointer has been released as many times as the program handed it
to a handle, less the number of live handles still storing it, so it is
released exactly once per taking by the time no handle holds it; the native
release function is never called on a null pointer, and destroying a handle
that is null (never filled, moved from, or reset to null) calls nothing.  After
a handle is moved, destroying the source performs no release and destroying the
destination releases the resource exactly once. -/
theorem handles_release_exactly_once (k : HandleKind) (ops : List HandleOp)
    (hscope : wellScoped [] ops = true) :
    (∀ r, r ≠ 0 →
      (takenBy ops).count r =
        (HandleState.run k HandleState.empty ops).trace.count (k.releaseCall r) +
          HandleState.holders (HandleState.run k HandleState.empty ops).live r) ∧
    (∀ r, r ≠ 0 → HandleState.holders (HandleState.run k HandleState.empty ops).live r = 0 →
      (HandleState.run k HandleState.empty ops).trace.count (k.releaseCall r) =
        (takenBy ops).count r) ∧
    (∀ c ∈ (HandleState.run k HandleState.empty ops).trace, ∃ r, r ≠ 0 ∧ c = k.releaseCall r) ∧
    (∀ h, HandleState.get (HandleState.run k HandleState.empty ops).live h = some { ptr := 0 } →
      ((HandleState.run k HandleState.empty ops).step k (HandleOp.destroy h)).trace =
        (HandleState.run k HandleState.empty ops).trace) ∧
    (∀ src dst u, HandleState.get (HandleState.run k HandleState.empty ops).live src = some u →
      u.ptr ≠ 0 → HandleState.get (HandleState.run k HandleState.empty ops).live dst = none →
      (((HandleState.run k HandleState.empty ops).step k
          (HandleOp.moveConstruct dst src)).step k (HandleOp.destroy src)).trace
        = (HandleState.run k HandleState.empty ops).trace ∧
      ((((HandleState.run k HandleState.empty ops).step k
          (HandleOp.moveConstruct dst src)).step k (HandleOp.destroy src)).step k
          (HandleOp.destroy dst)).trace
        = (HandleState.run k HandleState.empty ops).trace ++ [k.releaseCall u.ptr]) ∧
    (∀ src dst u v, HandleState.get (HandleState.run k HandleState.empty ops).live src = some u →
      u.ptr ≠ 0 → HandleState.get (HandleState.run k HandleState.empty ops).live dst = some v →
      dst ≠ src →
      (((HandleState.run k HandleState.empty ops).step k
          (HandleOp.moveAssign dst src)).step k (HandleOp.destroy src)).trace
        = ((HandleState.run k HandleState.empty ops).step k
            (HandleOp.moveAssign dst src)).trace ∧
      ((((HandleState.run k HandleState.empty ops).step k
          (HandleOp.moveAssign dst src)).step k (HandleOp.destroy src)).step k
          (HandleOp.destroy dst)).trace
        = ((HandleState.run k HandleState.empty ops).step k
            (HandleOp.moveAssign dst src)).trace ++ [k.releaseCall u.ptr]) := by
  have hbal := HandleState.run_balanced k HandleState.empty ops []
    (HandleState.empty_balanced k) (by simpa [HandleState.empty, HandleState.names] using hscope)
  simp only [List.nil_append] at hbal
  refine ⟨hbal.1, ?_, hbal.2, ?_, ?_, ?_⟩
  · intro r hr h0
    have := hbal.1 r hr
    omega
  · intro h hg
    rw [step_destroy_of_get k _ h { ptr := 0 } hg]
    simp
  · intro src dst u hsrc hp hdst
    exact moveConstruct_then_destroy k _ src dst u hsrc hp hdst
  · intro src dst u v hsrc hp hdst hne
    exact moveAssign_then_destroy k _ src dst u v hsrc hp hdst hne

/-- The statement of C7 for font handles and the program
`FontPtr a(5); FontPtr b(std::move(a)); a.reset(6); a = std::move(b);`
followed by the end of both lifetimes: the reset takes font `6`, the move
assignment closes it, the destruction of `a` closes font `5`, and each of the
two fonts is closed once. -/
theorem handles_release_exactly_once_witness :
    wellScoped []
      [HandleOp.own 0 5, HandleOp.moveConstruct 1 0, HandleOp.reset 0 6,
       HandleOp.moveAssign 0 1, HandleOp.destroy 0, HandleOp.destroy 1] = true ∧
    (HandleState.run HandleKind.font HandleState.empty
      [HandleOp.own 0 5, HandleOp.moveConstruct 1 0, HandleOp.reset 0 6,
       HandleOp.moveAssign 0 1, HandleOp.destroy 0, HandleOp.destroy 1]).trace
      = [NativeCall.TTF_CloseFont 6, NativeCall.TTF_CloseFont 5] ∧
    takenBy
      [HandleOp.own 0 5, HandleOp.moveConstruct 1 0, HandleOp.reset 0 6,
       HandleOp.moveAssign 0 1, HandleOp.destroy 0, HandleOp.destroy 1] = [5, 6] ∧
    (HandleState.run HandleKind.font HandleState.empty
      [HandleOp.own 0 5, HandleOp.moveConstruct 1 0, HandleOp.reset 0 6,
       HandleOp.moveAssign 0 1, HandleOp.destroy 0, HandleOp.destroy 1]).trace.count
        (NativeCall.TTF_CloseFont 6) =
      (takenBy
        [HandleOp.own 0 5, HandleOp.moveConstruct 1 0, HandleOp.reset 0 6,
         HandleOp.moveAssign 0 1, HandleOp.destroy 0, HandleOp.destroy 1]).count 6 :=
  ⟨by decide, by decide, by decide,
   (handles_release_exactly_once HandleKind.font
      [HandleOp.own 0 5, HandleOp.moveConstruct 1 0, HandleOp.reset 0 6,
       HandleOp.moveAssign 0 1, HandleOp.destroy 0, HandleOp.destroy 1]
      (by decide)).2.1 6 (by decide) (by decide)⟩

/-! ## Construction of `Window` -/

/-- C8. A failed construction of `Window` leaves no native resource alive.  If
`SDL_CreateWindow` fails, the constructor fails with `Failed to create window`
and the window creation is the only native call: no renderer creation is
attempted and nothing is released.  If the window is created and
`SDL_CreateRenderer` fails, the constructor fails with
`Failed to create renderer` and, by the time the caller sees the error, the
created window has been destroyed, exactly once. -/
theorem Window_construct_failure (sdl : SDL) (title : String) (width height : Int) :
    (sdl.createWindow title width height = 0 →
      Window.construct sdl title width height =
        (Except.error ("Failed to create window: " ++ sdl.getError),
         [NativeCall.SDL_CreateWindow title width height])) ∧
    (sdl.createWindow title width height ≠ 0 →
      sdl.createRenderer (sdl.createWindow title width height) = 0 →
      Window.construct sdl title width height =
        (Except.error ("Failed to create renderer: " ++ sdl.getError),
         [NativeCall.SDL_CreateWindow title width height,
          NativeCall.SDL_CreateRenderer (sdl.createWindow title width height),
          NativeCall.SDL_DestroyWindow (sdl.createWindow title width height)]) ∧
      (Window.construct sdl title width height).2.count
        (NativeCall.SDL_DestroyWindow (sdl.createWindow title width height)) = 1) := by
  constructor
  · intro hw
    simp [Window.construct, Window.destroyMembers, UniquePtr.reset, UniquePtr.destroy, hw]
  · intro hw hr
    have hc : Window.construct sdl title width height =
        (Except.error ("Failed to create renderer: " ++ sdl.getError),
         [NativeCall.SDL_CreateWindow title width height,
          NativeCall.SDL_CreateRenderer (sdl.createWindow title width height),
          NativeCall.SDL_DestroyWindow (sdl.createWindow title width height)]) := by
      simp [Window.construct, Window.destroyMembers, UniquePtr.reset, UniquePtr.destroy, hw, hr,
        Window.SDLWindowDeleter]
    refine ⟨hc, ?_⟩
    rw [hc]
    simp [List.count_cons]

/-- The statement of C8 for an SDL that creates no window, and for one that
creates window `7` and no renderer. -/
theorem Window_construct_failure_witness :
    Window.construct sdlNoWindow "DX-Ball" 800 600 =
      (Except.error ("Failed to create window: " ++ sdlNoWindow.getError),
       [NativeCall.SDL_CreateWindow "DX-Ball" 800 600]) ∧
    Window.construct sdlNoRenderer "DX-Ball" 800 600 =
      (Except.error ("Failed to create renderer: " ++ sdlNoRenderer.getError),
       [NativeCall.SDL_CreateWindow "DX-Ball" 800 600,
        NativeCall.SDL_CreateRenderer 7,
        NativeCall.SDL_DestroyWindow 7]) :=
  ⟨(Window_construct_failure sdlNoWindow "DX-Ball" 800 600).1 rfl,
   ((Window_construct_failure sdlNoRenderer "DX-Ball" 800 600).2 (by decide) rfl).1⟩


/-! ## The dimensions of a `Text` -/

theorem setText_result_ok_iff (t : Text) (c : SetTextCall) :
    (Text.setText t c).result = Except.ok () ↔ c.succeeds = true := by
  unfold Text.setText SetTextCall.succeeds UniquePtr.reset
  by_cases hs : c.sdl.surface = 0
  · simp [hs]
  · by_cases ht : c.sdl.texture = 0
    · simp [hs, ht]
    · simp [hs, ht]

theorem getDimensions_setText (t : Text) (c : SetTextCall) :
    Text.getDimensions (Text.setText t c).text =
      if c.succeeds = true then (c.sdl.surfaceW, c.sdl.surfaceH) else Text.getDimensions t := by
  unfold Text.setText SetTextCall.succeeds UniquePtr.reset Text.getDimensions
  by_cases hs : c.sdl.surface = 0
  · simp [hs]
  · by_cases ht : c.sdl.texture = 0
    · simp [hs, ht]
    · simp [hs, ht]

theorem getDimensions_setTextAll (t : Text) (calls : List SetTextCall) :
    Text.getDimensions (Text.setTextAll t calls) =
      match (calls.filter SetTextCall.succeeds).getLast? with
      | none => Text.getDimensions t
      | some c => (c.sdl.surfaceW, c.sdl.surfaceH) := by
  induction calls using List.reverseRecOn with
  | nil => simp [Text.setTextAll]
  | append_singleton init c ih =>
    have hrun : Text.setTextAll t (init ++ [c]) =
        (Text.setText (Text.setTextAll t init) c).text := by
      simp [Text.setTextAll, List.foldl_append]
    rw [hrun, getDimensions_setText, ih, List.filter_append]
    by_cases hc : c.succeeds = true
    · simp [hc, List.filter_cons]
    · simp [hc, List.filter_cons]

/-- C9. For every `Text` and every sequence of `setText` calls on it,
`getDimensions` returns `(0, 0)` if no call of the sequence has succeeded and
otherwise the width and height of the pixel buffer rasterized by the most
recent successful call; a call succeeds exactly when the platform returns a
non-null surface and a non-null texture, and a call that fails, at
rasterization or at texture creation, does not change what `getDimensions`
returns. -/
theorem getDimensions_tracks_last_success (renderer font : Nat) (calls : List SetTextCall) :
    Text.getDimensions (Text.setTextAll (Text.withFont renderer font) calls)
      = specDimensions calls ∧
    (∀ (t : Text) (c : SetTextCall),
      (Text.setText t c).result = Except.ok () ↔ c.succeeds = true) ∧
    (∀ (t : Text) (c : SetTextCall), (Text.setText t c).result ≠ Except.ok () →
      Text.getDimensions (Text.setText t c).text = Text.getDimensions t) := by
  refine ⟨?_, setText_result_ok_iff, ?_⟩
  · rw [getDimensions_setTextAll, specDimensions]
    cases (calls.filter SetTextCall.succeeds).getLast? <;>
      simp [Text.getDimensions, Text.withFont]
  · intro t c hfail
    have hc : ¬ c.succeeds = true := fun h => hfail ((setText_result_ok_iff t c).mpr h)
    rw [getDimensions_setText]
    simp [hc]

/-- The statement of C9 for a successful call with a 120 by 40 pixel buffer
followed by a call that fails at texture creation: the dimensions are still
`(120, 40)`. -/
theorem getDimensions_tracks_last_success_witness :
    Text.getDimensions (Text.setTextAll (Text.withFont 1 2) callsFailAtTexture) = (120, 40) ∧
    Text.getDimensions (Text.setTextAll (Text.withFont 1 2) []) = (0, 0) :=
  ⟨(getDimensions_tracks_last_success 1 2 callsFailAtTexture).1.trans (by decide),
   (getDimensions_tracks_last_success 1 2 []).1.trans (by decide)⟩

/-- C10 does not hold of the code.  After a successful `setText` with a 120 by
40 pixel buffer and a second call whose texture creation fails, the `Text`
stores no texture, the one it had having been destroyed, and still records the
dimensions `(120, 40)`: it is neither `Uninitialized` nor `Ready`. -/
theorem setText_failure_leaves_dimensions_without_texture :
    (Text.setTextAll (Text.withFont 1 2) callsFailAtTexture).texture.ptr = 0 ∧
    Text.getDimensions (Text.setTextAll (Text.withFont 1 2) callsFailAtTexture) = (120, 40) ∧
    (Text.setText (Text.setTextAll (Text.withFont 1 2) (callsFailAtTexture.take 1))
        { text := "Bye", color := { r := 255, g := 255, b := 255, a := 255 },
          sdl := { surface := 11, surfaceW := 30, surfaceH := 40, texture := 0,
                   getError := "out of memory" } }).trace
      = [NativeCall.TTF_RenderText_Blended 2 "Bye" { r := 255, g := 255, b := 255, a := 255 },
         NativeCall.SDL_CreateTextureFromSurface 1 11,
         NativeCall.SDL_DestroyTexture 20,
         NativeCall.SDL_DestroySurface 11] ∧
    ¬ Text.Uninitialized (Text.setTextAll (Text.withFont 1 2) callsFailAtTexture) ∧
    ∀ c, ¬ Text.ReadyFrom (Text.setTextAll (Text.withFont 1 2) callsFailAtTexture) c := by
  refine ⟨by decide, by decide, by decide, ?_, ?_⟩
  · intro h
    have := h.2.1
    revert this
    decide
  · intro c h
    have := h.1
    revert this
    decide

end Game
